import Mathlib

/-!
# CHIP-8 interpreter (`chip8.c`): shallow embedding and verified properties

The machine state of `struct chip8` (`chip8.h`) is embedded as a Lean structure.
Fixed-size C arrays are functions `Nat → Nat` whose accesses are guarded by the
array bound: an access outside the bound is undefined behaviour in C and makes
the embedded operation return `none`.  Machine integers are natural numbers
reduced modulo `2^8` / `2^16` at every store into a `uint8_t` / `uint16_t`
location.  The readings of `clock()` and `rand()` are inputs (`Env`).
-/

namespace Chip8

/-! ## Machine integers -/

/-- Conversion of a C `int` value to `uint8_t`. -/
def u8 (z : Int) : Nat := (z % 256).toNat

/-- Conversion of a C `int` value to `uint16_t`. -/
def u16 (z : Int) : Nat := (z % 65536).toNat

/-- The cast `(int8_t)` applied to a `uint8_t` value. -/
def i8 (n : Nat) : Int := if n % 256 < 128 then ((n % 256 : Nat) : Int) else ((n % 256 : Nat) : Int) - 256

/-- The constant `INT8_MAX`. -/
def INT8_MAX : Int := 127

/-- The constant `INT16_MAX`. -/
def INT16_MAX : Int := 32767

/-! ## State -/

/-- The struct `chip8` (`State`) of `chip8.h`, without the debug log handles. -/
structure State where
  memory : Nat → Nat
  v : Nat → Nat
  delay_timer : Nat
  sound_timer : Nat
  display : Nat → Nat
  keys : Nat → Nat
  stack : Nat → Nat
  sp : Nat
  I : Nat
  pc : Nat
  opcode : Nat
  last_delay_update : Int
  last_sound_update : Int

/-- Inputs of one cycle that come from the C library: the result of `rand()`, the
constant `CLOCKS_PER_SEC`, and the reading of `clock()` at each of its call sites. -/
structure Env where
  rand : Nat
  clocksPerSec : Nat
  clockF15 : Int
  clockF18 : Int
  clockDelayTest : Int
  clockDelaySet : Int
  clockSoundTest : Int
  clockSoundSet : Int

/-- Array update `a[i] = x`. -/
def store (a : Nat → Nat) (i x : Nat) : Nat → Nat := fun j => if j = i then x else a j

/-- Read `c8->memory[i]` (4096 cells). -/
def rdMem (s : State) (i : Nat) : Option Nat := if i < 4096 then some (s.memory i) else none

/-- Write `c8->memory[i] = x` (stored as `uint8_t`). -/
def wrMem (s : State) (i x : Nat) : Option State :=
  if i < 4096 then some { s with memory := store s.memory i (x % 256) } else none

/-- Read `c8->v[i]` (16 registers). -/
def rdV (s : State) (i : Nat) : Option Nat := if i < 16 then some (s.v i) else none

/-- Write `c8->v[i] = x` (stored as `uint8_t`). -/
def wrV (s : State) (i x : Nat) : Option State :=
  if i < 16 then some { s with v := store s.v i (x % 256) } else none

/-- Read `c8->display[i]` (64*32 cells). -/
def rdDisp (s : State) (i : Nat) : Option Nat := if i < 2048 then some (s.display i) else none

/-- Write `c8->display[i] = x` (stored as `uint8_t`). -/
def wrDisp (s : State) (i x : Nat) : Option State :=
  if i < 2048 then some { s with display := store s.display i (x % 256) } else none

/-- Read `c8->keys[i]` (16 keys). -/
def rdKey (s : State) (i : Nat) : Option Nat := if i < 16 then some (s.keys i) else none

/-- Read `c8->stack[i]` (16 slots). -/
def rdStack (s : State) (i : Nat) : Option Nat := if i < 16 then some (s.stack i) else none

/-- Write `c8->stack[i] = x` (stored as `uint16_t`). -/
def wrStack (s : State) (i x : Nat) : Option State :=
  if i < 16 then some { s with stack := store s.stack i (x % 65536) } else none

/-- The statement `c8->pc += k`. -/
def addPc (s : State) (k : Nat) : State := { s with pc := (s.pc + k) % 65536 }

/-- The loop `for (int i = 0; i < n; i++) body(i)`; the body may fault. -/
def forLoop {σ : Type} (n : Nat) (body : Nat → σ → Option σ) (s : σ) : Option σ :=
  match n with
  | 0 => some s
  | k + 1 => (forLoop k body s).bind (body k)

/-- The register index `(c8->opcode & 0x0F00) >> 8`. -/
def opX (op : Nat) : Nat := (op &&& 0x0F00) >>> 8

/-- The register index `(c8->opcode & 0x00F0) >> 4`. -/
def opY (op : Nat) : Nat := (op &&& 0x00F0) >>> 4

/-! ## Operations -/

/-- The table `chip8_fontset` (80 bytes). -/
def chip8_fontset : List Nat :=
  [0xF0, 0x90, 0x90, 0x90, 0xF0,
   0x20, 0x60, 0x20, 0x20, 0x70,
   0xF0, 0x10, 0xF0, 0x80, 0xF0,
   0xF0, 0x10, 0xF0, 0x10, 0xF0,
   0x90, 0x90, 0xF0, 0x10, 0x10,
   0xF0, 0x80, 0xF0, 0x10, 0xF0,
   0xF0, 0x80, 0xF0, 0x90, 0xF0,
   0xF0, 0x10, 0x20, 0x40, 0x40,
   0xF0, 0x90, 0xF0, 0x90, 0xF0,
   0xF0, 0x90, 0xF0, 0x10, 0xF0,
   0xF0, 0x90, 0xF0, 0x90, 0x90,
   0xE0, 0x90, 0xE0, 0x90, 0xE0,
   0xF0, 0x80, 0x80, 0x80, 0xF0,
   0xE0, 0x90, 0x90, 0x90, 0xE0,
   0xF0, 0x80, 0xF0, 0x80, 0xF0,
   0xF0, 0x80, 0xF0, 0x80, 0x80]

/-- The call `memset (a, 0, n)` on an array of `n` or more cells. -/
def memset0 (a : Nat → Nat) (n : Nat) : Nat → Nat := fun i => if i < n then 0 else a i

/-- The call `memcpy (a, src, n)` from a table of `n` or more cells. -/
def memcpy (a : Nat → Nat) (src : List Nat) (n : Nat) : Nat → Nat :=
  fun i => if i < n then src.getD i 0 else a i

/-- The function `c8_init`; `now` is the reading of `clock()`.  The seeding of the
random source has no effect on the state. -/
def c8_init (now : Int) (s : State) : State :=
  { s with
    opcode := 0, pc := 0x200, sp := 0, I := 0,
    last_delay_update := now, last_sound_update := now,
    memory := memcpy (memset0 s.memory 4096) chip8_fontset 80,
    v := memset0 s.v 16,
    display := memset0 s.display (64 * 32),
    stack := memset0 s.stack 16 }


/-- The function `c8_clear_screen`. -/
def c8_clear_screen (s : State) : Option State :=
  forLoop (64 * 32) (fun i t => wrDisp t i 0) s

/-- The word `(c8->memory[c8->pc] << 8) | c8->memory[c8->pc+1]` as a `uint16_t`. -/
def fetchWord (s : State) : Nat := ((s.memory s.pc <<< 8) ||| s.memory (s.pc + 1)) % 65536

/-- Fetch: `c8->opcode = (c8->memory[c8->pc] << 8) | c8->memory[c8->pc+1]`. -/
def c8_fetch (s : State) : Option State := do
  let _ ← rdMem s s.pc
  let _ ← rdMem s (s.pc + 1)
  some { s with opcode := fetchWord s }

/-- Body of the inner loop of `Dxyn` for one `xline`. -/
def drawPixel (yline pixel xline : Nat) (s : State) : Option State :=
  if pixel &&& (0x80 >>> xline) ≠ 0 then do
    let vx ← rdV s (opX s.opcode)
    let vy ← rdV s (opY s.opcode)
    let d ← rdDisp s (vx + xline + (vy + yline) * 64)
    let s1 ← if d = 1 then wrV s 0xF 1 else some s
    let vx1 ← rdV s1 (opX s1.opcode)
    let vy1 ← rdV s1 (opY s1.opcode)
    let d1 ← rdDisp s1 (vx1 + xline + (vy1 + yline) * 64)
    wrDisp s1 (vx1 + xline + (vy1 + yline) * 64) (d1 ^^^ 1)
  else some s

/-- Body of the outer loop of `Dxyn` for one `yline`. -/
def drawRow (yline : Nat) (s : State) : Option State := do
  let pixel ← rdMem s (s.I + yline)
  forLoop 8 (drawPixel yline pixel) s

/-- The case `0xD000` of the opcode switch. -/
def execDraw (s : State) : Option State := do
  let s1 ← wrV s 0xF 0
  let s2 ← forLoop (s1.opcode &&& 0x000F) drawRow s1
  some (addPc s2 2)

/-- The case `0x8000` of the opcode switch (inner switch, then `pc += 2`). -/
def execArith (s : State) : Option State := do
  let op := s.opcode
  let s1 ←
    if op &&& 0x000F = 0x0000 then do
      let vy ← rdV s (opY op)
      wrV s (opX op) vy
    else if op &&& 0x000F = 0x0001 then do
      let vx ← rdV s (opX op)
      let vy ← rdV s (opY op)
      wrV s (opX op) (vx ||| vy)
    else if op &&& 0x000F = 0x0002 then do
      let vx ← rdV s (opX op)
      let vy ← rdV s (opY op)
      wrV s (opX op) (vx &&& vy)
    else if op &&& 0x000F = 0x0003 then do
      let vx ← rdV s (opX op)
      let vy ← rdV s (opY op)
      wrV s (opX op) (vx ^^^ vy)
    else if op &&& 0x000F = 0x0004 then do
      let vx ← rdV s (opX op)
      let vy ← rdV s (opY op)
      let s1 ← if (vx : Int) > INT8_MAX - (vy : Int) then wrV s 15 0 else wrV s 15 1
      let vx1 ← rdV s1 (opX op)
      let vy1 ← rdV s1 (opY op)
      wrV s1 (opX op) (vx1 + vy1)
    else if op &&& 0x000F = 0x0005 then do
      let vx ← rdV s (opX op)
      let vy ← rdV s (opY op)
      let s1 ← if vx < vy then wrV s 15 0 else wrV s 15 1
      let vx1 ← rdV s1 (opX op)
      let vy1 ← rdV s1 (opY op)
      wrV s1 (opX op) (u8 ((vx1 : Int) - (vy1 : Int)))
    else if op &&& 0x000F = 0x0006 then do
      let vx ← rdV s (opX op)
      let s1 ← wrV s 15 (vx &&& 1)
      let w ← rdV s1 (op &&& 0x00F0)
      wrV s1 (opX op) (w >>> 1)
    else if op &&& 0x000F = 0x0007 then do
      let vy ← rdV s (opY op)
      let vx ← rdV s (opX op)
      let s1 ← if vy < vx then wrV s 15 0 else wrV s 15 1
      let vy1 ← rdV s1 (opY op)
      let vx1 ← rdV s1 (opX op)
      wrV s1 (opX op) (u8 ((vy1 : Int) - (vx1 : Int)))
    else if op &&& 0x000F = 0x000E then do
      let vx ← rdV s (opX op)
      let s1 ← wrV s 15 (if i8 vx < 0 then 1 else 0)
      let vy ← rdV s1 (opY op)
      wrV s1 (opX op) (vy <<< 1)
    else some s
  some (addPc s1 2)

/-- Body of the key scan of `Fx0A`; the Boolean is the local variable `key`. -/
def keyScanBody (x : Nat) (i : Nat) (t : State × Bool) : Option (State × Bool) := do
  let k ← rdKey t.1 i
  if k ≠ 0 then do
    let s1 ← wrV t.1 x i
    some (s1, true)
  else some t

/-- Body of the loop of `Fx55`: `c8->memory[c8->I + i] = c8->v[i]`. -/
def regStoreBody (i : Nat) (t : State) : Option State := do
  let vi ← rdV t i
  wrMem t (t.I + i) vi

/-- Body of the loop of the final `else` branch (`Fx65`): `c8->v[i] = c8->memory[c8->I + i]`. -/
def regLoadBody (i : Nat) (t : State) : Option State := do
  let m ← rdMem t (t.I + i)
  wrV t i m

/-- The case `0xF000` of the opcode switch.  The Boolean of the result tells
whether the function returned early (the `return` of `Fx0A`). -/
def execMisc (env : Env) (s : State) : Option (State × Bool) :=
  let op := s.opcode
  if op &&& 0x00FF = 0x0007 then do
    let s1 ← wrV s (opX op) s.delay_timer
    some (addPc s1 2, false)
  else if op &&& 0x00FF = 0x000A then do
    let r ← forLoop 16 (keyScanBody (opX op)) (s, false)
    if !r.2 then some (r.1, true) else some (addPc r.1 2, false)
  else if op &&& 0x00FF = 0x0015 then do
    let vx ← rdV s (opX op)
    some (addPc { s with delay_timer := vx % 256, last_delay_update := env.clockF15 } 2, false)
  else if op &&& 0x00FF = 0x0018 then do
    let vx ← rdV s (opX op)
    some (addPc { s with sound_timer := vx % 256, last_sound_update := env.clockF18 } 2, false)
  else if op &&& 0x00FF = 0x001E then do
    let vx ← rdV s (opX op)
    let s1 ← if (s.I : Int) > INT16_MAX - (vx : Int) then wrV s 15 1 else wrV s 15 0
    let vx1 ← rdV s1 (opX op)
    some (addPc { s1 with I := (s1.I + vx1) % 65536 } 2, false)
  else if op &&& 0x00FF = 0x0029 then do
    let vx ← rdV s (opX op)
    some (addPc { s with I := (vx * 0x5) % 65536 } 2, false)
  else if op &&& 0x00FF = 0x0033 then do
    let vx ← rdV s (opX op)
    let s1 ← wrMem s s.I (vx / 100)
    let vx1 ← rdV s1 (opX op)
    let s2 ← wrMem s1 (s1.I + 1) ((vx1 % 100) / 10)
    let vx2 ← rdV s2 (opX op)
    let s3 ← wrMem s2 (s2.I + 2) (vx2 % 10)
    some (addPc s3 2, false)
  else if op &&& 0x00FF = 0x0055 then do
    let s1 ← forLoop (opX op + 1) regStoreBody s
    some (addPc s1 2, false)
  else do
    let s1 ← forLoop (opX op + 1) regLoadBody s
    some (addPc s1 2, false)

/-- The opcode switch of `c8_emulate_cycle` (decode and execute).  The Boolean of
the result tells whether the function returned early. -/
def execute (env : Env) (s : State) : Option (State × Bool) :=
  let op := s.opcode
  if op &&& 0xF000 = 0x0000 then
    if op &&& 0x000F = 0x0000 then do
      let s1 ← c8_clear_screen s
      some (addPc s1 2, false)
    else if op &&& 0xFF00 = 0x0000 then do
      let s1 : State := { s with sp := u16 ((s.sp : Int) - 1) }
      let a ← rdStack s1 s1.sp
      some (addPc { s1 with pc := a } 2, false)
    else some (s, false)
  else if op &&& 0xF000 = 0x1000 then
    some ({ s with pc := op &&& 0x0FFF }, false)
  else if op &&& 0xF000 = 0x2000 then do
    let s1 ← wrStack s s.sp s.pc
    some ({ s1 with sp := (s1.sp + 1) % 65536, pc := op &&& 0x0FFF }, false)
  else if op &&& 0xF000 = 0x3000 then do
    let vx ← rdV s (opX op)
    if vx = op &&& 0x00FF then some (addPc s 4, false) else some (addPc s 2, false)
  else if op &&& 0xF000 = 0x4000 then do
    let vx ← rdV s (opX op)
    if vx ≠ op &&& 0x00FF then some (addPc s 4, false) else some (addPc s 2, false)
  else if op &&& 0xF000 = 0x5000 then do
    let vx ← rdV s (opX op)
    let vy ← rdV s (opY op)
    if vx = vy then some (addPc s 4, false) else some (addPc s 2, false)
  else if op &&& 0xF000 = 0x6000 then do
    let s1 ← wrV s (opX op) (op &&& 0x00FF)
    some (addPc s1 2, false)
  else if op &&& 0xF000 = 0x7000 then do
    let vx ← rdV s (opX op)
    let s1 ← wrV s (opX op) (vx + (op &&& 0x00FF))
    some (addPc s1 2, false)
  else if op &&& 0xF000 = 0x8000 then do
    let s1 ← execArith s
    some (s1, false)
  else if op &&& 0xF000 = 0x9000 then do
    let vx ← rdV s (opX op)
    let vy ← rdV s (opY op)
    if vx ≠ vy then some (addPc s 4, false) else some (addPc s 2, false)
  else if op &&& 0xF000 = 0xA000 then
    some (addPc { s with I := op &&& 0x0FFF } 2, false)
  else if op &&& 0xF000 = 0xB000 then do
    let v0 ← rdV s 0
    some ({ s with pc := (v0 + (op &&& 0xFFF)) % 65536 }, false)
  else if op &&& 0xF000 = 0xC000 then do
    let s1 ← wrV s (opX op) ((env.rand % 256) &&& (op &&& 0x00FF))
    some (addPc s1 2, false)
  else if op &&& 0xF000 = 0xD000 then do
    let s1 ← execDraw s
    some (s1, false)
  else if op &&& 0xF000 = 0xE000 then
    if op &&& 0x00FF = 0x009E then do
      let vx ← rdV s (opX op)
      let k ← rdKey s vx
      if k ≠ 0 then some (addPc s 4, false) else some (addPc s 2, false)
    else do
      let vx ← rdV s (opX op)
      let k ← rdKey s vx
      if k = 0 then some (addPc s 4, false) else some (addPc s 2, false)
  else if op &&& 0xF000 = 0xF000 then
    execMisc env s
  else some (s, false)

/-- The test `((double)(clock() - last))/CLOCKS_PER_SEC > 1/60.0`, read in exact
arithmetic for a positive `CLOCKS_PER_SEC`. -/
def elapsed (now last : Int) (clocksPerSec : Nat) : Bool :=
  decide ((now - last) * 60 > (clocksPerSec : Int))

/-- The timer update at the end of `c8_emulate_cycle`. -/
def update_timers (env : Env) (s : State) : State :=
  let s1 : State :=
    if s.delay_timer > 0 then
      if elapsed env.clockDelayTest s.last_delay_update env.clocksPerSec then
        { s with delay_timer := u8 ((s.delay_timer : Int) - 1), last_delay_update := env.clockDelaySet }
      else s
    else s
  if s1.sound_timer > 0 then
    if elapsed env.clockSoundTest s1.last_sound_update env.clocksPerSec then
      { s1 with sound_timer := u8 ((s1.sound_timer : Int) - 1), last_sound_update := env.clockSoundSet }
    else s1
  else s1

/-- The function `c8_emulate_cycle`: fetch, decode and execute, update timers. -/
def c8_emulate_cycle (env : Env) (s : State) : Option State := do
  let s1 ← c8_fetch s
  let r ← execute env s1
  if r.2 then some r.1 else some (update_timers env r.1)

/-! ## Sprite drawing: frame and effect relations -/

/-- Everything but the display and the flag register `V15` is the same in `t1` as in `t`. -/
structure Frame (t t1 : State) : Prop where
  opcode : t1.opcode = t.opcode
  I : t1.I = t.I
  memory : t1.memory = t.memory
  pc : t1.pc = t.pc
  v : ∀ i, i ≠ 15 → t1.v i = t.v i
  stack : t1.stack = t.stack
  sp : t1.sp = t.sp
  keys : t1.keys = t.keys
  delay_timer : t1.delay_timer = t.delay_timer
  sound_timer : t1.sound_timer = t.sound_timer
  last_delay_update : t1.last_delay_update = t.last_delay_update
  last_sound_update : t1.last_sound_update = t.last_sound_update

/-- The effect of drawing on the cells `S`: each cell of `S` is XORed with 1, every other
cell is kept, and `V15` becomes 1 when some cell of `S` held 1, else keeps its value. -/
def Drawn (S : Nat → Prop) (t t1 : State) : Prop :=
  Frame t t1 ∧
  (∀ j, S j → t1.display j = (t.display j ^^^ 1) % 256) ∧
  (∀ j, ¬ S j → t1.display j = t.display j) ∧
  ((∃ j, S j ∧ t.display j = 1) → t1.v 15 = 1) ∧
  ((¬ ∃ j, S j ∧ t.display j = 1) → t1.v 15 = t.v 15)

/-- The display index `Vx + xline + (Vy + yline) * 64` for register values `vx`, `vy`. -/
def cellIndex (vx vy r c : Nat) : Nat := vx + c + (vy + r) * 64

/-- Bit `7 - c` of the sprite row `memory[I + r]`. -/
def spriteBit (s : State) (r c : Nat) : Nat := (s.memory (s.I + r) >>> (7 - c)) &&& 1

/-- The display cells on which `Dxyn` lands a set sprite bit: the indices
`Vx + c + (Vy + r) * 64` with `r < n`, `c < 8` and `memory[I + r] & (0x80 >> c)` nonzero. -/
def spriteCells (s : State) (x y n : Nat) (j : Nat) : Prop :=
  ∃ r, r < n ∧ ∃ c, c < 8 ∧ s.memory (s.I + r) &&& (0x80 >>> c) ≠ 0 ∧
    j = cellIndex (s.v x) (s.v y) r c

/-! ## Concrete machines used to evaluate the code -/

/-- A machine with every cell zero and `pc = 0x200`. -/
def blank : State :=
  { memory := fun _ => 0, v := fun _ => 0, delay_timer := 0, sound_timer := 0,
    display := fun _ => 0, keys := fun _ => 0, stack := fun _ => 0, sp := 0, I := 0,
    pc := 0x200, opcode := 0, last_delay_update := 0, last_sound_update := 0 }

/-- Library inputs with `CLOCKS_PER_SEC = 1000000` and every reading zero. -/
def env0 : Env :=
  { rand := 0, clocksPerSec := 1000000, clockF15 := 0, clockF18 := 0, clockDelayTest := 0,
    clockDelaySet := 0, clockSoundTest := 0, clockSoundSet := 0 }

/-- Memory holding the two bytes `hi`, `lo` at `0x200` and zero elsewhere. -/
def prog1 (hi lo : Nat) : Nat → Nat := fun i => if i = 0x200 then hi else if i = 0x201 then lo else 0

/-- Register file with `V0 = a`, `V1 = b`, `V2 = c` and zero elsewhere. -/
def regs3 (a b c : Nat) : Nat → Nat := fun i => if i = 0 then a else if i = 1 then b else if i = 2 then c else 0

/-- Opcode `8014` at `0x200` with `V0 = 200`, `V1 = 100`. -/
def sAddHigh : State := { blank with memory := prog1 0x80 0x14, v := regs3 200 100 0 }

/-- Opcode `8014` at `0x200` with `V0 = 1`, `V1 = 1`. -/
def sAddLow : State := { blank with memory := prog1 0x80 0x14, v := regs3 1 1 0 }

/-- Opcode `8106` at `0x200` with `V0 = 3`, `V1 = 4`. -/
def sShrLow : State := { blank with memory := prog1 0x81 0x06, v := regs3 3 4 0 }

/-- Opcode `8126` at `0x200` with `V1 = 4`, `V2 = 3`. -/
def sShrHigh : State := { blank with memory := prog1 0x81 0x26, v := regs3 0 4 3 }

/-- Opcode `812E` at `0x200` with `V1 = 1`, `V2 = 0x80`. -/
def sShl : State := { blank with memory := prog1 0x81 0x2E, v := regs3 0 1 0x80 }

/-- Opcode `80F4` at `0x200` with `V0 = 10` and `V15 = 20`. -/
def sAddFlagOperand : State :=
  { blank with memory := prog1 0x80 0xF4, v := fun i => if i = 0 then 10 else if i = 15 then 20 else 0 }

/-- Opcode `8125` at `0x200` with `V1 = 3`, `V2 = 5`. -/
def sSub : State := { blank with memory := prog1 0x81 0x25, v := regs3 0 3 5 }

/-- Opcode `8127` at `0x200` with `V1 = 3`, `V2 = 5`. -/
def sSubN : State := { blank with memory := prog1 0x81 0x27, v := regs3 0 3 5 }

/-- Opcode `2300` at `0x200` and opcode `00EE` at `0x300`. -/
def sCall : State :=
  { blank with memory := fun i => if i = 0x200 then 0x23 else if i = 0x301 then 0xEE else 0 }

/-- Opcode `F133` at `0x200` with `V1 = 234` and `I = 0x300`. -/
def sBcd : State := { blank with memory := prog1 0xF1 0x33, v := regs3 0 234 0, I := 0x300 }

/-- Opcode `F255` at `0x200` and `F265` at `0x202`, with `V0 = 7`, `V1 = 8`, `V2 = 9`
and `I = 0x300`. -/
def sRegs : State :=
  { blank with
    memory := fun i => if i = 0x200 then 0xF2 else if i = 0x201 then 0x55 else
      if i = 0x202 then 0xF2 else if i = 0x203 then 0x65 else 0,
    v := regs3 7 8 9, I := 0x300 }

/-- Opcode `D011` at `0x200` and at `0x202`, sprite row `memory[0x300] = 0xC0`, `I = 0x300`,
`V0 = 3`, `V1 = 2`, blank display. -/
def sDraw : State :=
  { blank with
    memory := fun i => if i = 0x200 then 0xD0 else if i = 0x201 then 0x11 else
      if i = 0x202 then 0xD0 else if i = 0x203 then 0x11 else if i = 0x300 then 0xC0 else 0,
    v := regs3 3 2 0, I := 0x300 }

/-- The machine `sDraw` with the display cell `131 = 3 + 2 * 64` already set. -/
def sDrawHit : State := { sDraw with display := fun j => if j = 131 then 1 else 0 }

/-- Opcode `D010` (a sprite of zero rows) at `0x200` and at `0x202`, blank display. -/
def sDrawNone : State :=
  { blank with
    memory := fun i => if i = 0x200 then 0xD0 else if i = 0x201 then 0x10 else
      if i = 0x202 then 0xD0 else if i = 0x203 then 0x10 else 0 }

/-- Opcode `D011` at `0x200` and at `0x202` with an all-zero sprite row, blank display. -/
def sDrawZeroRow : State :=
  { blank with
    memory := fun i => if i = 0x200 then 0xD0 else if i = 0x201 then 0x11 else
      if i = 0x202 then 0xD0 else if i = 0x203 then 0x11 else 0,
    I := 0x300 }

/-! ## Repeated cycles and the key wait -/

/-- Repeated calls of `c8_emulate_cycle` by the driver, one per element of `envs`, with
the keypad left as it is between the calls. -/
def runCycles : List Env → State → Option State
  | [], s => some s
  | e :: es, s => (c8_emulate_cycle e s).bind (runCycles es)

/-- Every field other than the register file is the same in `t` as in `s`. -/
structure SameButV (s t : State) : Prop where
  memory : t.memory = s.memory
  delay_timer : t.delay_timer = s.delay_timer
  sound_timer : t.sound_timer = s.sound_timer
  display : t.display = s.display
  keys : t.keys = s.keys
  stack : t.stack = s.stack
  sp : t.sp = s.sp
  I : t.I = s.I
  pc : t.pc = s.pc
  opcode : t.opcode = s.opcode
  last_delay_update : t.last_delay_update = s.last_delay_update
  last_sound_update : t.last_sound_update = s.last_sound_update

/-- Opcode `F10A` at `0x200`, no key pressed, `delay_timer = 5`. -/
def sKeyIdle : State := { blank with memory := prog1 0xF1 0x0A, delay_timer := 5 }

/-- Opcode `F10A` at `0x200` with the keys 3 and 9 pressed. -/
def sKeyDown : State :=
  { blank with memory := prog1 0xF1 0x0A, keys := fun i => if i = 3 then 1 else if i = 9 then 1 else 0 }

/-! ## Program loading -/

/-- Conversion of a C integer value to `size_t`, for a `size_t` of `w` bits. -/
def sizeT (w : Nat) (z : Int) : Nat := (z % 2 ^ w).toNat

/-- The asserted condition `512 < 4096 - size` of `c8_load_game`, evaluated in `size_t`
arithmetic (`size` is a `size_t` of `w` bits, the constants are converted to it). -/
def c8_load_fits (w : Nat) (size : Nat) : Bool :=
  decide (sizeT w 512 < sizeT w ((4096 : Int) - ((sizeT w size : Nat) : Int)))

/-- The function `c8_load_game` on a file holding the bytes `file`: `none` when the
assertion fails (the program aborts) or when `fread` would write past `memory`. -/
def c8_load_game (w : Nat) (file : List Nat) (s : State) : Option State :=
  if c8_load_fits w file.length then
    if 512 + file.length ≤ 4096 then
      some { s with memory := fun i =>
        if 512 ≤ i ∧ i < 512 + file.length then file.getD (i - 512) 0 % 256 else s.memory i }
    else none
  else none

/-- Opcode `F11E` at `0x200` with `V1 = 1` and `I = 0xFFF`. -/
def sIndexAdd : State := { blank with memory := prog1 0xF1 0x1E, v := regs3 0 1 0, I := 0xFFF }

/-- A machine whose every cell and scalar holds 7. -/
def sDirty : State :=
  { memory := fun _ => 7, v := fun _ => 7, delay_timer := 7, sound_timer := 7,
    display := fun _ => 7, keys := fun _ => 7, stack := fun _ => 7, sp := 7, I := 7,
    pc := 7, opcode := 7, last_delay_update := 7, last_sound_update := 7 }

/-! ## Machines for the `0NNN` opcodes and the timers -/

/-- Opcode `00E0` at `0x200` on a display whose every cell is 1, with `V3 = 9`. -/
def sClear : State :=
  { blank with memory := prog1 0x00 0xE0, display := fun _ => 1, v := fun i => if i = 3 then 9 else 0 }

/-- Opcode `0230` at `0x200` on a display whose every cell is 1. -/
def sNativeClear : State := { blank with memory := prog1 0x02 0x30, display := fun _ => 1 }

/-- Opcode `00E1` at `0x200` with `sp = 1` and `stack[0] = 0x300`. -/
def sNativePop : State :=
  { blank with memory := prog1 0x00 0xE1, sp := 1, stack := fun i => if i = 0 then 0x300 else 0 }

/-- Opcode `0123` at `0x200`. -/
def sNativeStall : State := { blank with memory := prog1 0x01 0x23 }

/-- Every one of the 2048 display cells holds 0 or 1. -/
def BinaryDisplay (s : State) : Prop := ∀ j, j < 2048 → s.display j = 0 ∨ s.display j = 1

/-- Every result of the fallible computation `o` satisfies `Q`. -/
def OptAll {α : Type} (Q : α → Prop) (o : Option α) : Prop := ∀ a, o = some a → Q a

/-- The predicate `P` survives every state update the opcode switch performs outside the
timer opcodes: a write to the registers, memory, stack, `pc`, `opcode`, `sp` or `I`, the clearing
of a display cell and the XOR of a display cell with 1. -/
structure Closed (P : State → Prop) : Prop where
  v : ∀ (t : State) (f : Nat → Nat), P t → P { t with v := f }
  memory : ∀ (t : State) (f : Nat → Nat), P t → P { t with memory := f }
  stack : ∀ (t : State) (f : Nat → Nat), P t → P { t with stack := f }
  pc : ∀ (t : State) (p : Nat), P t → P { t with pc := p }
  opcode : ∀ (t : State) (p : Nat), P t → P { t with opcode := p }
  sp : ∀ (t : State) (p : Nat), P t → P { t with sp := p }
  I : ∀ (t : State) (p : Nat), P t → P { t with I := p }
  clear : ∀ (t : State) (i : Nat), i < 2048 → P t → P { t with display := store t.display i 0 }
  flip : ∀ (t : State) (i : Nat), i < 2048 → P t →
    P { t with display := store t.display i ((t.display i ^^^ 1) % 256) }

theorem and_shiftLeft_mask (a b i : Nat) : a &&& (b <<< i) = ((a >>> i) &&& b) <<< i := by
  apply Nat.eq_of_testBit_eq
  intro j
  simp only [Nat.testBit_and, Nat.testBit_shiftLeft, Nat.testBit_shiftRight]
  by_cases h : i ≤ j
  · simp [h, Nat.add_sub_cancel' h]
  · simp [h]

theorem and_F000 (op : Nat) : op &&& 0xF000 = (op / 4096 % 16) * 4096 := by
  have h := and_shiftLeft_mask op 15 12
  have e : (15 : Nat) <<< 12 = 0xF000 := by decide
  rw [e] at h
  rw [h, Nat.shiftLeft_eq, Nat.shiftRight_eq_div_pow]
  have := Nat.and_pow_two_sub_one_eq_mod (op / 2 ^ 12) 4
  norm_num at this ⊢
  exact this

theorem and_FF00 (op : Nat) : op &&& 0xFF00 = (op / 256 % 256) * 256 := by
  have h := and_shiftLeft_mask op 255 8
  have e : (255 : Nat) <<< 8 = 0xFF00 := by decide
  rw [e] at h
  rw [h, Nat.shiftLeft_eq, Nat.shiftRight_eq_div_pow]
  have := Nat.and_pow_two_sub_one_eq_mod (op / 2 ^ 8) 8
  norm_num at this ⊢
  exact this

theorem and_0F00 (op : Nat) : op &&& 0x0F00 = (op / 256 % 16) * 256 := by
  have h := and_shiftLeft_mask op 15 8
  have e : (15 : Nat) <<< 8 = 0x0F00 := by decide
  rw [e] at h
  rw [h, Nat.shiftLeft_eq, Nat.shiftRight_eq_div_pow]
  have := Nat.and_pow_two_sub_one_eq_mod (op / 2 ^ 8) 4
  norm_num at this ⊢
  exact this

theorem and_00F0 (op : Nat) : op &&& 0x00F0 = (op / 16 % 16) * 16 := by
  have h := and_shiftLeft_mask op 15 4
  have e : (15 : Nat) <<< 4 = 0x00F0 := by decide
  rw [e] at h
  rw [h, Nat.shiftLeft_eq, Nat.shiftRight_eq_div_pow]
  have := Nat.and_pow_two_sub_one_eq_mod (op / 2 ^ 4) 4
  norm_num at this ⊢
  exact this

theorem and_000F (op : Nat) : op &&& 0x000F = op % 16 :=
  Nat.and_pow_two_sub_one_eq_mod op 4

theorem and_00FF (op : Nat) : op &&& 0x00FF = op % 256 :=
  Nat.and_pow_two_sub_one_eq_mod op 8

theorem and_0FFF (op : Nat) : op &&& 0x0FFF = op % 4096 :=
  Nat.and_pow_two_sub_one_eq_mod op 12

theorem opX_eq (op : Nat) : opX op = op / 256 % 16 := by
  unfold opX
  rw [and_0F00, Nat.shiftRight_eq_div_pow]
  norm_num

theorem opY_eq (op : Nat) : opY op = op / 16 % 16 := by
  unfold opY
  rw [and_00F0, Nat.shiftRight_eq_div_pow]
  norm_num

/-! ## The cycle on a fetched opcode -/

theorem cycle_eq (env : Env) (s : State) (hpc : s.pc + 1 < 4096) :
    c8_emulate_cycle env s =
      (execute env { s with opcode := fetchWord s }).bind
        (fun r => if r.2 then some r.1 else some (update_timers env r.1)) := by
  have h0 : s.pc < 4096 := by omega
  simp [c8_emulate_cycle, c8_fetch, rdMem, hpc, h0]

theorem cycle_arith (env : Env) (s : State) (hpc : s.pc + 1 < 4096)
    (h8 : fetchWord s &&& 0xF000 = 0x8000) :
    c8_emulate_cycle env s =
      (execArith { s with opcode := fetchWord s }).map (update_timers env) := by
  rw [cycle_eq env s hpc]
  simp only [execute, h8]
  cases h : execArith { s with opcode := fetchWord s } <;> simp [h]

@[simp] theorem update_timers_v (env : Env) (s : State) : (update_timers env s).v = s.v := by
  unfold update_timers
  dsimp only
  split_ifs <;> rfl

@[simp] theorem update_timers_memory (env : Env) (s : State) :
    (update_timers env s).memory = s.memory := by
  unfold update_timers
  dsimp only
  split_ifs <;> rfl

@[simp] theorem update_timers_display (env : Env) (s : State) :
    (update_timers env s).display = s.display := by
  unfold update_timers
  dsimp only
  split_ifs <;> rfl

@[simp] theorem update_timers_stack (env : Env) (s : State) :
    (update_timers env s).stack = s.stack := by
  unfold update_timers
  dsimp only
  split_ifs <;> rfl

@[simp] theorem update_timers_sp (env : Env) (s : State) : (update_timers env s).sp = s.sp := by
  unfold update_timers
  dsimp only
  split_ifs <;> rfl

@[simp] theorem update_timers_I (env : Env) (s : State) : (update_timers env s).I = s.I := by
  unfold update_timers
  dsimp only
  split_ifs <;> rfl

@[simp] theorem update_timers_pc (env : Env) (s : State) : (update_timers env s).pc = s.pc := by
  unfold update_timers
  dsimp only
  split_ifs <;> rfl

@[simp] theorem update_timers_keys (env : Env) (s : State) :
    (update_timers env s).keys = s.keys := by
  unfold update_timers
  dsimp only
  split_ifs <;> rfl

@[simp] theorem update_timers_opcode (env : Env) (s : State) :
    (update_timers env s).opcode = s.opcode := by
  unfold update_timers
  dsimp only
  split_ifs <;> rfl

/-! ## Subtraction with borrow flag (`8xy5`, `8xy7`) -/

/-- C4: for register indices `x`, `y` different from 15, opcode `8xy5` sets `V15` to 0
exactly when `Vx < Vy` (else 1) and `Vx` to `(Vx - Vy) mod 256`; opcode `8xy7` sets
`V15` to 0 exactly when `Vy < Vx` (else 1) and `Vx` to `(Vy - Vx) mod 256`. -/
theorem sub_borrow_flag (env : Env) (s : State) (x y : Nat) (hx : x < 15) (hy : y < 15)
    (hpc : s.pc + 1 < 4096) :
    (fetchWord s = 0x8005 + x * 256 + y * 16 →
      ∃ s1, c8_emulate_cycle env s = some s1 ∧
        s1.v 15 = (if s.v x < s.v y then 0 else 1) ∧
        (s1.v x : Int) = ((s.v x : Int) - (s.v y : Int)) % 256) ∧
    (fetchWord s = 0x8007 + x * 256 + y * 16 →
      ∃ s1, c8_emulate_cycle env s = some s1 ∧
        s1.v 15 = (if s.v y < s.v x then 0 else 1) ∧
        (s1.v x : Int) = ((s.v y : Int) - (s.v x : Int)) % 256) := by
  constructor
  · intro hop
    have h8 : fetchWord s &&& 0xF000 = 0x8000 := by rw [and_F000]; omega
    have h5 : fetchWord s &&& 0x000F = 5 := by rw [and_000F]; omega
    have hX : opX (fetchWord s) = x := by rw [opX_eq]; omega
    have hY : opY (fetchWord s) = y := by rw [opY_eq]; omega
    have hx15 : x ≠ 15 := by omega
    have hy15 : y ≠ 15 := by omega
    have hx16 : x < 16 := by omega
    have hy16 : y < 16 := by omega
    rw [cycle_arith env s hpc h8]
    by_cases hlt : s.v x < s.v y
    · simp [execArith, h5, hX, hY, rdV, wrV, hx16, hy16, hlt, store, hx15, hy15, addPc, u8]
      omega
    · simp [execArith, h5, hX, hY, rdV, wrV, hx16, hy16, hlt, store, hx15, hy15, addPc, u8]
      omega
  · intro hop
    have h8 : fetchWord s &&& 0xF000 = 0x8000 := by rw [and_F000]; omega
    have h5 : fetchWord s &&& 0x000F = 7 := by rw [and_000F]; omega
    have hX : opX (fetchWord s) = x := by rw [opX_eq]; omega
    have hY : opY (fetchWord s) = y := by rw [opY_eq]; omega
    have hx15 : x ≠ 15 := by omega
    have hy15 : y ≠ 15 := by omega
    have hx16 : x < 16 := by omega
    have hy16 : y < 16 := by omega
    rw [cycle_arith env s hpc h8]
    by_cases hlt : s.v y < s.v x
    · simp [execArith, h5, hX, hY, rdV, wrV, hx16, hy16, hlt, store, hx15, hy15, addPc, u8]
      omega
    · simp [execArith, h5, hX, hY, rdV, wrV, hx16, hy16, hlt, store, hx15, hy15, addPc, u8]
      omega

/-- Witness of `sub_borrow_flag`: `8125` and `8127` with `V1 = 3`, `V2 = 5`. -/
theorem sub_borrow_flag_witness :
    (∃ s1, c8_emulate_cycle env0 sSub = some s1 ∧
        s1.v 15 = (if sSub.v 1 < sSub.v 2 then 0 else 1) ∧
        (s1.v 1 : Int) = ((sSub.v 1 : Int) - (sSub.v 2 : Int)) % 256) ∧
    (∃ s1, c8_emulate_cycle env0 sSubN = some s1 ∧
        s1.v 15 = (if sSubN.v 2 < sSubN.v 1 then 0 else 1) ∧
        (s1.v 1 : Int) = ((sSubN.v 2 : Int) - (sSubN.v 1 : Int)) % 256) :=
  ⟨(sub_borrow_flag env0 sSub 1 2 (by decide) (by decide) (by decide)).1 (by decide),
   (sub_borrow_flag env0 sSubN 1 2 (by decide) (by decide) (by decide)).2 (by decide)⟩

/-! ## Addition with carry flag (`8xy4`) -/

/-- C1 (evaluation at the failing inputs): on opcode `8014` with `V0 = 200`, `V1 = 100`
(sum 300, a carry) the cycle leaves `V15 = 0`, and with `V0 = 1`, `V1 = 1` (sum 2, no
carry) it leaves `V15 = 1`. -/
theorem add_carry_flag_eval :
    (c8_emulate_cycle env0 sAddHigh).map (fun t => t.v 15) = some 0 ∧
    (c8_emulate_cycle env0 sAddLow).map (fun t => t.v 15) = some 1 := by
  decide

/-- What opcode `8xy4` computes when neither operand register is the flag register:
the flag is 0 exactly when `Vx + Vy > 127`, and `Vx` receives the sum modulo 256. -/
theorem add_actual (env : Env) (s : State) (x y : Nat) (hx : x < 15) (hy : y < 15)
    (hpc : s.pc + 1 < 4096) (hop : fetchWord s = 0x8004 + x * 256 + y * 16) :
    ∃ s1, c8_emulate_cycle env s = some s1 ∧
      s1.v 15 = (if s.v x + s.v y > 127 then 0 else 1) ∧
      s1.v x = (s.v x + s.v y) % 256 := by
  have h8 : fetchWord s &&& 0xF000 = 0x8000 := by rw [and_F000]; omega
  have h4 : fetchWord s &&& 0x000F = 4 := by rw [and_000F]; omega
  have hX : opX (fetchWord s) = x := by rw [opX_eq]; omega
  have hY : opY (fetchWord s) = y := by rw [opY_eq]; omega
  have hx15 : x ≠ 15 := by omega
  have hy15 : y ≠ 15 := by omega
  have hx16 : x < 16 := by omega
  have hy16 : y < 16 := by omega
  rw [cycle_arith env s hpc h8]
  by_cases hlt : (s.v x : Int) > INT8_MAX - (s.v y : Int)
  · have h2 : s.v x + s.v y > 127 := by unfold INT8_MAX at hlt; omega
    simp [execArith, h4, hX, hY, rdV, wrV, hx16, hy16, hlt, store, hx15, hy15, addPc, h2]
    omega
  · have h2 : ¬ s.v x + s.v y > 127 := by unfold INT8_MAX at hlt; omega
    simp [execArith, h4, hX, hY, rdV, wrV, hx16, hy16, hlt, store, hx15, hy15, addPc, h2]
    omega

/-- C5 (evaluation at the failing input): on opcode `80F4` with `V0 = 10` and
`V15 = 20` the cycle leaves `V0 = 11` (the flag written first, plus 10), whereas
`(10 + 20) mod 256 = 30`. -/
theorem add_flag_operand_eval :
    (c8_emulate_cycle env0 sAddFlagOperand).map (fun t => t.v 0) = some 11 := by
  decide

/-! ## Shifts (`8xy6`, `8xyE`) -/

/-- C2 (evaluation at the failing inputs): on opcode `8106` with `V0 = 3`, `V1 = 4` the
cycle leaves `V15 = 0` (the low bit of `V1`, whereas the low bit of `V0` is 1) and
`V1 = 1`; on opcode `8126` the register array is read at index `0x20`, outside its 16
entries. -/
theorem shr_eval :
    (c8_emulate_cycle env0 sShrLow).map (fun t => (t.v 15, t.v 1)) = some (0, 1) ∧
    c8_emulate_cycle env0 sShrHigh = none := by
  constructor
  · decide
  · rfl

/-- C3 (evaluation at the failing input): on opcode `812E` with `V1 = 1`, `V2 = 0x80`
the cycle leaves `V15 = 0` (bit 7 of `V1`, whereas bit 7 of `V2` is 1) and `V1 = 0`. -/
theorem shl_eval :
    (c8_emulate_cycle env0 sShl).map (fun t => (t.v 15, t.v 1)) = some (0, 0) := by
  decide

/-! ## Call and return (`2nnn`, `00EE`) -/

theorem fetchWord_update_timers (env : Env) (s : State) :
    fetchWord (update_timers env s) = fetchWord s := by
  simp [fetchWord]

/-- C6: from a state with `sp < 16` and `pc = p`, opcode `2nnn` sets `stack[sp] = p`,
increments `sp` and sets `pc = nnn`; when the instruction then fetched at `nnn` is
`00EE`, the next cycle sets `pc = p + 2`, restores `sp`, and leaves registers, `I`,
memory and display as they were before the call. -/
theorem call_return_roundtrip (env env2 : Env) (s : State) (nnn : Nat)
    (hn : nnn < 4096) (hsp : s.sp < 16) (hpc : s.pc + 1 < 4096)
    (hop : fetchWord s = 0x2000 + nnn) :
    ∃ s1, c8_emulate_cycle env s = some s1 ∧
      s1.stack s.sp = s.pc ∧ s1.sp = s.sp + 1 ∧ s1.pc = nnn ∧
      (nnn + 1 < 4096 → fetchWord s1 = 0x00EE →
        ∃ s2, c8_emulate_cycle env2 s1 = some s2 ∧
          s2.pc = s.pc + 2 ∧ s2.sp = s.sp ∧ s2.v = s.v ∧ s2.I = s.I ∧
          s2.memory = s.memory ∧ s2.display = s.display) := by
  have h2 : fetchWord s &&& 0xF000 = 0x2000 := by rw [and_F000]; omega
  have hnnn : fetchWord s &&& 0x0FFF = nnn := by rw [and_0FFF]; omega
  have e1 : c8_emulate_cycle env s = some (update_timers env
      { s with opcode := fetchWord s, stack := store s.stack s.sp (s.pc % 65536),
               sp := (s.sp + 1) % 65536, pc := nnn }) := by
    rw [cycle_eq env s hpc]
    simp [execute, h2, hnnn, wrStack, hsp]
  refine ⟨_, e1, ?_, ?_, ?_, ?_⟩
  · simp [store]; omega
  · simp; omega
  · simp
  · intro hn1 hw
    have hpc1 : (update_timers env
        { s with opcode := fetchWord s, stack := store s.stack s.sp (s.pc % 65536),
                 sp := (s.sp + 1) % 65536, pc := nnn }).pc + 1 < 4096 := by
      simpa using hn1
    have h0 : (0x00EE : Nat) &&& 0xF000 = 0 := by decide
    have hE : (0x00EE : Nat) &&& 0x000F ≠ 0 := by decide
    have hF : (0x00EE : Nat) &&& 0xFF00 = 0 := by decide
    have hsp1 : u16 (((s.sp : Int) + 1) % 65536 - 1) = s.sp := by
      unfold u16; omega
    rw [cycle_eq env2 _ hpc1, hw]
    simp [execute, h0, hE, hF, rdStack, hsp1, hsp, addPc, store]
    omega

/-- Witness of `call_return_roundtrip`: `pc = 0x200`, opcode `2300`, then `00EE` at
`0x300`, giving `pc = 0x300`, `sp = 1`, `stack[0] = 0x200` and then `pc = 0x202`,
`sp = 0`. -/
theorem call_return_roundtrip_witness :
    ∃ s1, c8_emulate_cycle env0 sCall = some s1 ∧
      s1.stack 0 = 0x200 ∧ s1.sp = 1 ∧ s1.pc = 0x300 ∧
      ∃ s2, c8_emulate_cycle env0 s1 = some s2 ∧
        s2.pc = 0x202 ∧ s2.sp = 0 ∧ s2.v = sCall.v ∧ s2.I = sCall.I ∧
        s2.memory = sCall.memory ∧ s2.display = sCall.display := by
  obtain ⟨s1, h1, h2, h3, h4, h5⟩ := call_return_roundtrip env0 env0 sCall 0x300
    (by decide) (by decide) (by decide) (by decide)
  have e : c8_emulate_cycle env0 sCall = some (update_timers env0
      { sCall with opcode := fetchWord sCall, stack := store sCall.stack sCall.sp 0x200,
                   sp := 1, pc := 0x300 }) := rfl
  have hs : s1 = update_timers env0
      { sCall with opcode := fetchWord sCall, stack := store sCall.stack sCall.sp 0x200,
                   sp := 1, pc := 0x300 } := Option.some.inj (h1.symm.trans e)
  have hw : fetchWord s1 = 0x00EE := by
    rw [hs]
    decide
  exact ⟨s1, h1, h2, h3, h4, h5 (by decide) hw⟩

/-! ## The `Fxxx` family -/

theorem cycle_misc (env : Env) (s : State) (hpc : s.pc + 1 < 4096)
    (hF : fetchWord s &&& 0xF000 = 0xF000) :
    c8_emulate_cycle env s =
      (execMisc env { s with opcode := fetchWord s }).bind
        (fun r => if r.2 then some r.1 else some (update_timers env r.1)) := by
  rw [cycle_eq env s hpc]
  simp only [execute, hF]
  rfl

/-- C10: opcode `Fx33` with `Vx = v` in `0..255` and `I + 2 < 4096` stores three
decimal digits, each in `0..9`, with `100 * memory[I] + 10 * memory[I+1] + memory[I+2] = v`,
and leaves every other memory cell unchanged. -/
theorem bcd_store (env : Env) (s : State) (x : Nat) (hx : x < 16) (hpc : s.pc + 1 < 4096)
    (hop : fetchWord s = 0xF033 + x * 256) (hI : s.I + 2 < 4096) (hv : s.v x < 256) :
    ∃ s1, c8_emulate_cycle env s = some s1 ∧
      s1.memory s.I < 10 ∧ s1.memory (s.I + 1) < 10 ∧ s1.memory (s.I + 2) < 10 ∧
      100 * s1.memory s.I + 10 * s1.memory (s.I + 1) + s1.memory (s.I + 2) = s.v x ∧
      ∀ j, j ≠ s.I → j ≠ s.I + 1 → j ≠ s.I + 2 → s1.memory j = s.memory j := by
  have hF : fetchWord s &&& 0xF000 = 0xF000 := by rw [and_F000]; omega
  have h33 : fetchWord s &&& 0x00FF = 0x33 := by rw [and_00FF]; omega
  have hX : opX (fetchWord s) = x := by rw [opX_eq]; omega
  have hI0 : s.I < 4096 := by omega
  have hI1 : s.I + 1 < 4096 := by omega
  rw [cycle_misc env s hpc hF]
  simp [execMisc, h33, hX, rdV, hx, wrMem, hI0, hI1, hI, addPc, store]
  refine ⟨?_, ?_, ?_, ?_, ?_⟩
  · omega
  · omega
  · omega
  · omega
  · intro j h0 h1 h2
    simp [h0, h1, h2]

/-- Witness of `bcd_store`: `Vx = 234` gives the digits 2, 3, 4. -/
theorem bcd_store_witness :
    ∃ s1, c8_emulate_cycle env0 sBcd = some s1 ∧
      s1.memory 0x300 < 10 ∧ s1.memory 0x301 < 10 ∧ s1.memory 0x302 < 10 ∧
      100 * s1.memory 0x300 + 10 * s1.memory 0x301 + s1.memory 0x302 = 234 ∧
      ∀ j, j ≠ 0x300 → j ≠ 0x301 → j ≠ 0x302 → s1.memory j = sBcd.memory j :=
  bcd_store env0 sBcd 1 (by decide) (by decide) (by decide) (by decide) (by decide)

/-- The digits stored for `Vx = 234` are 2, 3 and 4. -/
theorem bcd_store_234 :
    (c8_emulate_cycle env0 sBcd).map (fun t => (t.memory 0x300, t.memory 0x301, t.memory 0x302))
      = some (2, 3, 4) := by
  decide

/-! ## Register store and load (`Fx55`, `Fx65`) -/

theorem store_loop (s : State) (n : Nat) (hn : n ≤ 16) (hI : s.I + n ≤ 4096) :
    ∃ t, forLoop n regStoreBody s = some t ∧ t.v = s.v ∧ t.I = s.I ∧
      ∀ j, t.memory j = if s.I ≤ j ∧ j < s.I + n then s.v (j - s.I) % 256 else s.memory j := by
  induction n with
  | zero =>
    refine ⟨s, rfl, rfl, rfl, fun j => ?_⟩
    rw [if_neg (by omega)]
  | succ k ih =>
    obtain ⟨t, ht, hv, hIt, hm⟩ := ih (by omega) (by omega)
    have hk : k < 16 := by omega
    have hIk : s.I + k < 4096 := by omega
    refine ⟨{ t with memory := store t.memory (t.I + k) (t.v k % 256) }, ?_, hv, hIt, ?_⟩
    · simp [forLoop, ht, regStoreBody, rdV, hk, wrMem, hIt, hIk]
    · intro j
      simp only [store, hm, hIt, hv]
      by_cases hj : j = s.I + k
      · subst hj
        simp
      · have h1 : (s.I ≤ j ∧ j < s.I + (k + 1)) ↔ (s.I ≤ j ∧ j < s.I + k) := by omega
        simp [hj, h1]

theorem load_loop (s : State) (n : Nat) (hn : n ≤ 16) (hI : s.I + n ≤ 4096) :
    ∃ t, forLoop n regLoadBody s = some t ∧ t.memory = s.memory ∧ t.I = s.I ∧
      ∀ j, t.v j = if j < n then s.memory (s.I + j) % 256 else s.v j := by
  induction n with
  | zero => exact ⟨s, rfl, rfl, rfl, fun j => by simp⟩
  | succ k ih =>
    obtain ⟨t, ht, hm, hIt, hv⟩ := ih (by omega) (by omega)
    have hk : k < 16 := by omega
    have hIk : s.I + k < 4096 := by omega
    refine ⟨{ t with v := store t.v k (t.memory (t.I + k) % 256) }, ?_, hm, hIt, ?_⟩
    · simp [forLoop, ht, regLoadBody, rdMem, hk, wrV, hIt, hIk]
    · intro j
      simp only [store, hm, hIt, hv]
      by_cases hj : j = k
      · subst hj
        simp
      · have h1 : j < k + 1 ↔ j < k := by omega
        simp [hj, h1]

/-- C9: for `x` in `0..15`, register values in `0..255` and `I + x < 4096`, opcode `Fx55`
leaves the registers and `I` unchanged and changes no memory cell outside
`memory[I..I+x]`; executing `Fx65` (same `x`, same `I`) afterwards on the resulting
state with all registers zeroed (at any `pc` where that opcode is fetched) yields
`V0..Vx` equal to their original values. -/
theorem store_load_roundtrip (env : Env) (s : State) (x : Nat) (hx : x < 16)
    (hpc : s.pc + 1 < 4096) (hop : fetchWord s = 0xF055 + x * 256)
    (hI : s.I + x < 4096) (hv : ∀ i, i ≤ x → s.v i < 256) :
    ∃ s1, c8_emulate_cycle env s = some s1 ∧ s1.v = s.v ∧ s1.I = s.I ∧
      (∀ j, (j < s.I ∨ s.I + x < j) → s1.memory j = s.memory j) ∧
      ∀ (env2 : Env) (q : Nat), q + 1 < 4096 →
        fetchWord { s1 with v := fun _ => 0, pc := q } = 0xF065 + x * 256 →
        ∃ s2, c8_emulate_cycle env2 { s1 with v := fun _ => 0, pc := q } = some s2 ∧
          ∀ i, i ≤ x → s2.v i = s.v i := by
  have hF : fetchWord s &&& 0xF000 = 0xF000 := by rw [and_F000]; omega
  have h55 : fetchWord s &&& 0x00FF = 0x55 := by rw [and_00FF]; omega
  have hX : opX (fetchWord s) = x := by rw [opX_eq]; omega
  obtain ⟨t, ht, htv, htI, htm⟩ := store_loop { s with opcode := fetchWord s } (x + 1)
    (by omega) (by show s.I + (x + 1) ≤ 4096; omega)
  dsimp only at ht htv htI htm
  have e1 : c8_emulate_cycle env s = some (update_timers env (addPc t 2)) := by
    rw [cycle_misc env s hpc hF]
    simp [execMisc, h55, hX, ht]
  refine ⟨_, e1, ?_, ?_, ?_, ?_⟩
  · simp [addPc, htv]
  · simp [addPc, htI]
  · intro j hj
    have : ¬ (s.I ≤ j ∧ j < s.I + (x + 1)) := by omega
    simp [addPc, htm, this]
  · intro env2 q hq hw
    have hF2 : (0xF065 + x * 256) &&& 0xF000 = 0xF000 := by rw [and_F000]; omega
    have h65 : (0xF065 + x * 256) &&& 0x00FF = 0x65 := by rw [and_00FF]; omega
    have hX2 : opX (0xF065 + x * 256) = x := by rw [opX_eq]; omega
    obtain ⟨t2, ht2, -, -, ht2v⟩ := load_loop
      { ({ update_timers env (addPc t 2) with v := fun _ => 0, pc := q } : State) with
        opcode := 0xF065 + x * 256 } (x + 1)
      (by omega) (by simp [addPc, htI]; omega)
    dsimp only at ht2 ht2v
    refine ⟨update_timers env2 (addPc t2 2), ?_, ?_⟩
    · rw [cycle_misc env2 _ hq (by rw [hw]; exact hF2), hw]
      simp at ht2
      simp [execMisc, h65, hX2, ht2]
    · intro i hi
      have hi1 : i < x + 1 := by omega
      have hmem : s.I ≤ s.I + i ∧ s.I + i < s.I + (x + 1) := by omega
      have := hv i hi
      simp [addPc, ht2v, hi1, htI, htm, hmem]
      omega

/-- Witness of `store_load_roundtrip`: `F255` at `0x200` with `V0 = 7`, `V1 = 8`,
`V2 = 9`, `I = 0x300`, then `F265` at `0x202` on zeroed registers. -/
theorem store_load_roundtrip_witness :
    ∃ s1, c8_emulate_cycle env0 sRegs = some s1 ∧ s1.v = sRegs.v ∧ s1.I = sRegs.I ∧
      ∃ s2, c8_emulate_cycle env0 { s1 with v := fun _ => 0, pc := 0x202 } = some s2 ∧
        s2.v 0 = 7 ∧ s2.v 1 = 8 ∧ s2.v 2 = 9 := by
  obtain ⟨s1, h1, hv, hI, hm, h2⟩ := store_load_roundtrip env0 sRegs 2 (by decide) (by decide)
    (by decide) (by decide) (by intro i hi; interval_cases i <;> decide)
  have hw : fetchWord { s1 with v := fun _ => 0, pc := 0x202 } = 0xF065 + 2 * 256 := by
    simp only [fetchWord]
    rw [hm 0x202 (Or.inl (by decide)), hm (0x202 + 1) (Or.inl (by decide))]
    decide
  obtain ⟨s2, h3, h4⟩ := h2 env0 0x202 (by decide) hw
  exact ⟨s1, h1, hv, hI, s2, h3, h4 0 (by decide), h4 1 (by decide), h4 2 (by decide)⟩

/-! ## Sprite drawing (`Dxyn`) -/

theorem Frame.refl (t : State) : Frame t t :=
  ⟨rfl, rfl, rfl, rfl, fun _ _ => rfl, rfl, rfl, rfl, rfl, rfl, rfl, rfl⟩

theorem Frame.trans {a b c : State} (h1 : Frame a b) (h2 : Frame b c) : Frame a c :=
  ⟨h2.opcode.trans h1.opcode, h2.I.trans h1.I, h2.memory.trans h1.memory, h2.pc.trans h1.pc,
   fun i hi => (h2.v i hi).trans (h1.v i hi), h2.stack.trans h1.stack, h2.sp.trans h1.sp,
   h2.keys.trans h1.keys, h2.delay_timer.trans h1.delay_timer,
   h2.sound_timer.trans h1.sound_timer, h2.last_delay_update.trans h1.last_delay_update,
   h2.last_sound_update.trans h1.last_sound_update⟩

theorem Drawn.empty (t : State) : Drawn (fun _ => False) t t :=
  ⟨Frame.refl t, fun _ h => h.elim, fun _ _ => rfl, fun ⟨_, h, _⟩ => h.elim, fun _ => rfl⟩

theorem Drawn.congr {S T : Nat → Prop} {t t1 : State} (h : ∀ j, S j ↔ T j)
    (hd : Drawn S t t1) : Drawn T t t1 := by
  have e : S = T := funext fun j => propext (h j)
  rw [← e]
  exact hd

theorem Drawn.comp {S T : Nat → Prop} {a b c : State} (h1 : Drawn S a b) (h2 : Drawn T b c)
    (hdis : ∀ j, S j → ¬ T j) : Drawn (fun j => S j ∨ T j) a c := by
  obtain ⟨f1, d1, k1, c1, n1⟩ := h1
  obtain ⟨f2, d2, k2, c2, n2⟩ := h2
  refine ⟨f1.trans f2, ?_, ?_, ?_, ?_⟩
  · intro j hj
    rcases hj with hj | hj
    · rw [k2 j (hdis j hj), d1 j hj]
    · have hS : ¬ S j := fun h => hdis j h hj
      rw [d2 j hj, k1 j hS]
  · intro j hj
    have hS : ¬ S j := fun h => hj (Or.inl h)
    have hT : ¬ T j := fun h => hj (Or.inr h)
    rw [k2 j hT, k1 j hS]
  · rintro ⟨j, hj, hone⟩
    by_cases hc2 : ∃ j, T j ∧ b.display j = 1
    · exact c2 hc2
    · rw [n2 hc2]
      rcases hj with hj | hj
      · exact c1 ⟨j, hj, hone⟩
      · exact absurd ⟨j, hj, by rw [k1 j (fun h => hdis j h hj)]; exact hone⟩ hc2
  · intro hno
    have hc1 : ¬ ∃ j, S j ∧ a.display j = 1 := fun ⟨j, hj, h⟩ => hno ⟨j, Or.inl hj, h⟩
    have hc2 : ¬ ∃ j, T j ∧ b.display j = 1 := by
      rintro ⟨j, hj, h⟩
      have hS : ¬ S j := fun h => hdis j h hj
      rw [k1 j hS] at h
      exact hno ⟨j, Or.inr hj, h⟩
    rw [n2 hc2, n1 hc1]

theorem drawPixel_drawn (t : State) (r p c x y vx vy : Nat)
    (hX : opX t.opcode = x) (hY : opY t.opcode = y) (hx : x < 15) (hy : y < 15)
    (hvx : t.v x = vx) (hvy : t.v y = vy)
    (hb : p &&& (0x80 >>> c) ≠ 0 → cellIndex vx vy r c < 2048) :
    ∃ t1, drawPixel r p c t = some t1 ∧
      Drawn (fun j => p &&& (0x80 >>> c) ≠ 0 ∧ j = cellIndex vx vy r c) t t1 := by
  have hx16 : x < 16 := by omega
  have hy16 : y < 16 := by omega
  have hx15 : x ≠ 15 := by omega
  have hy15 : y ≠ 15 := by omega
  by_cases hbit : p &&& (0x80 >>> c) ≠ 0
  · have hi := hb hbit
    unfold cellIndex at hi
    by_cases hd : t.display (vx + c + (vy + r) * 64) = 1
    · refine ⟨{ t with v := store t.v 15 1,
                       display := store t.display (vx + c + (vy + r) * 64) 0 }, ?_, ?_, ?_, ?_, ?_, ?_⟩
      · simp [drawPixel, hbit, hX, hY, rdV, wrV, hx16, hy16, hvx, hvy, rdDisp, wrDisp, hi, hd,
          store, hx15, hy15]
      · exact ⟨rfl, rfl, rfl, rfl, fun i hi => by simp [store, hi], rfl, rfl, rfl, rfl, rfl,
          rfl, rfl⟩
      · rintro j ⟨-, rfl⟩
        simp [store, cellIndex, hd]
      · intro j hj
        have : j ≠ vx + c + (vy + r) * 64 := fun h => hj ⟨hbit, h⟩
        simp [store, this]
      · intro _
        simp [store]
      · intro hno
        exact absurd ⟨_, ⟨hbit, rfl⟩, hd⟩ hno
    · refine ⟨{ t with display := store t.display (vx + c + (vy + r) * 64) ((t.display (vx + c + (vy + r) * 64) ^^^ 1) % 256) },
        ?_, ?_, ?_, ?_, ?_, ?_⟩
      · simp [drawPixel, hbit, hX, hY, rdV, hx16, hy16, hvx, hvy, rdDisp, wrDisp, hi, hd]
      · exact ⟨rfl, rfl, rfl, rfl, fun i _ => rfl, rfl, rfl, rfl, rfl, rfl, rfl, rfl⟩
      · rintro j ⟨-, rfl⟩
        simp [store, cellIndex]
      · intro j hj
        have : j ≠ vx + c + (vy + r) * 64 := fun h => hj ⟨hbit, h⟩
        simp [store, this]
      · rintro ⟨j, ⟨-, rfl⟩, h⟩
        exact absurd h hd
      · intro _
        rfl
  · refine ⟨t, ?_, ?_⟩
    · simp [drawPixel, hbit]
    · exact Drawn.congr (fun j => by simp [hbit]) (Drawn.empty t)

theorem drawRow_loop (t : State) (r p x y vx vy : Nat)
    (hX : opX t.opcode = x) (hY : opY t.opcode = y) (hx : x < 15) (hy : y < 15)
    (hvx : t.v x = vx) (hvy : t.v y = vy) (k : Nat)
    (hb : ∀ c, c < k → p &&& (0x80 >>> c) ≠ 0 → cellIndex vx vy r c < 2048) :
    ∃ t1, forLoop k (drawPixel r p) t = some t1 ∧
      Drawn (fun j => ∃ c, c < k ∧ p &&& (0x80 >>> c) ≠ 0 ∧ j = cellIndex vx vy r c) t t1 := by
  induction k with
  | zero =>
    refine ⟨t, rfl, Drawn.congr (fun j => ?_) (Drawn.empty t)⟩
    constructor
    · intro h
      exact h.elim
    · rintro ⟨c, hc, -⟩
      omega
  | succ k ih =>
    obtain ⟨tk, hk, hdk⟩ := ih (fun c hc => hb c (by omega))
    have hf := hdk.1
    obtain ⟨t1, h1, hd1⟩ := drawPixel_drawn tk r p k x y vx vy
      (by rw [hf.opcode]; exact hX) (by rw [hf.opcode]; exact hY) hx hy
      (by rw [hf.v x (by omega)]; exact hvx) (by rw [hf.v y (by omega)]; exact hvy)
      (hb k (by omega))
    refine ⟨t1, ?_, ?_⟩
    · simp [forLoop, hk, h1]
    · refine Drawn.congr (fun j => ?_) (Drawn.comp hdk hd1 ?_)
      · constructor
        · rintro (⟨c, hc, hbit, hj⟩ | ⟨hbit, hj⟩)
          · exact ⟨c, by omega, hbit, hj⟩
          · exact ⟨k, by omega, hbit, hj⟩
        · rintro ⟨c, hc, hbit, hj⟩
          by_cases hck : c = k
          · subst hck
            exact Or.inr ⟨hbit, hj⟩
          · exact Or.inl ⟨c, by omega, hbit, hj⟩
      · rintro j ⟨c, hc, -, hj⟩ ⟨-, hj2⟩
        unfold cellIndex at hj hj2
        omega

theorem draw_loop (t : State) (x y vx vy : Nat)
    (hX : opX t.opcode = x) (hY : opY t.opcode = y) (hx : x < 15) (hy : y < 15)
    (hvx : t.v x = vx) (hvy : t.v y = vy) (n : Nat) (hI : t.I + n ≤ 4096)
    (hb : ∀ r, r < n → ∀ c, c < 8 → t.memory (t.I + r) &&& (0x80 >>> c) ≠ 0 →
      cellIndex vx vy r c < 2048) :
    ∃ t1, forLoop n drawRow t = some t1 ∧
      Drawn (fun j => ∃ r, r < n ∧ ∃ c, c < 8 ∧ t.memory (t.I + r) &&& (0x80 >>> c) ≠ 0 ∧
        j = cellIndex vx vy r c) t t1 := by
  induction n with
  | zero =>
    refine ⟨t, rfl, Drawn.congr (fun j => ?_) (Drawn.empty t)⟩
    constructor
    · intro h
      exact h.elim
    · rintro ⟨r, hr, -⟩
      omega
  | succ k ih =>
    obtain ⟨tk, hk, hdk⟩ := ih (by omega) (fun r hr => hb r (by omega))
    have hf := hdk.1
    have hIk : tk.I + k < 4096 := by rw [hf.I]; omega
    obtain ⟨t1, h1, hd1⟩ := drawRow_loop tk k (t.memory (t.I + k)) x y vx vy
      (by rw [hf.opcode]; exact hX) (by rw [hf.opcode]; exact hY) hx hy
      (by rw [hf.v x (by omega)]; exact hvx) (by rw [hf.v y (by omega)]; exact hvy) 8
      (hb k (by omega))
    refine ⟨t1, ?_, ?_⟩
    · have hIk2 : t.I + k < 4096 := by omega
      have e : drawRow k tk = some t1 := by
        simp only [drawRow, rdMem, hf.I, hf.memory, hIk2, if_true, Option.bind_eq_bind,
          Option.some_bind]
        exact h1
      rw [forLoop, hk, Option.some_bind, e]
    · refine Drawn.congr (fun j => ?_) (Drawn.comp hdk hd1 ?_)
      · constructor
        · rintro (⟨r, hr, c, hc, hbit, hj⟩ | ⟨c, hc, hbit, hj⟩)
          · exact ⟨r, by omega, c, hc, hbit, hj⟩
          · exact ⟨k, by omega, c, hc, hbit, hj⟩
        · rintro ⟨r, hr, c, hc, hbit, hj⟩
          by_cases hrk : r = k
          · subst hrk
            exact Or.inr ⟨c, hc, hbit, hj⟩
          · exact Or.inl ⟨r, by omega, c, hc, hbit, hj⟩
      · rintro j ⟨r, hr, c, hc, -, hj⟩ ⟨c2, hc2, -, hj2⟩
        unfold cellIndex at hj hj2
        omega

theorem cycle_draw (env : Env) (s : State) (hpc : s.pc + 1 < 4096)
    (hD : fetchWord s &&& 0xF000 = 0xD000) :
    c8_emulate_cycle env s =
      (execDraw { s with opcode := fetchWord s }).map (update_timers env) := by
  rw [cycle_eq env s hpc]
  simp only [execute, hD]
  cases h : execDraw { s with opcode := fetchWord s } <;> simp [h]

/-- The effect of one cycle on opcode `Dxyn` (`x`, `y` different from 15) when the sprite
rows lie in memory and every set sprite bit lands inside the display array. -/
theorem draw_cycle (env : Env) (s : State) (x y n : Nat) (hx : x < 15) (hy : y < 15)
    (hn : n < 16) (hpc : s.pc + 1 < 4096)
    (hop : fetchWord s = 0xD000 + x * 256 + y * 16 + n) (hI : s.I + n ≤ 4096)
    (hb : ∀ j, spriteCells s x y n j → j < 2048) :
    ∃ s1, c8_emulate_cycle env s = some s1 ∧
      s1.memory = s.memory ∧ s1.I = s.I ∧ (∀ i, i ≠ 15 → s1.v i = s.v i) ∧
      s1.pc = s.pc + 2 ∧
      (∀ j, spriteCells s x y n j → s1.display j = (s.display j ^^^ 1) % 256) ∧
      (∀ j, ¬ spriteCells s x y n j → s1.display j = s.display j) ∧
      ((∃ j, spriteCells s x y n j ∧ s.display j = 1) → s1.v 15 = 1) ∧
      ((¬ ∃ j, spriteCells s x y n j ∧ s.display j = 1) → s1.v 15 = 0) := by
  have hD : fetchWord s &&& 0xF000 = 0xD000 := by rw [and_F000]; omega
  have hN : fetchWord s &&& 0x000F = n := by rw [and_000F]; omega
  have hX : opX (fetchWord s) = x := by rw [opX_eq]; omega
  have hY : opY (fetchWord s) = y := by rw [opY_eq]; omega
  have hx15 : x ≠ 15 := by omega
  have hy15 : y ≠ 15 := by omega
  obtain ⟨t1, h1, hf, hd, hk, hc, hnc⟩ := draw_loop
    { s with opcode := fetchWord s, v := store s.v 15 0 } x y (s.v x) (s.v y)
    hX hY hx hy (by simp [store, hx15]) (by simp [store, hy15]) n hI
    (fun r hr c hc hbit => hb _ ⟨r, hr, c, hc, hbit, rfl⟩)
  have e1 : c8_emulate_cycle env s = some (update_timers env (addPc t1 2)) := by
    rw [cycle_draw env s hpc hD]
    simp only [execDraw, wrV, Option.bind_eq_bind]
    simp [hN, h1]
  refine ⟨_, e1, ?_, ?_, ?_, ?_, ?_, ?_, ?_, ?_⟩
  · simpa [addPc] using hf.memory
  · simpa [addPc] using hf.I
  · intro i hi
    simpa [addPc, store, hi] using hf.v i hi
  · have := hf.pc
    simp only [addPc, update_timers_pc] at this ⊢
    rw [this]
    omega
  · intro j hj
    simpa [addPc] using hd j hj
  · intro j hj
    simpa [addPc] using hk j hj
  · intro h
    simpa [addPc] using hc h
  · intro h
    simpa [addPc, store] using hnc h

theorem mask_bit (p c : Nat) (hc : c < 8) :
    p &&& (0x80 >>> c) ≠ 0 ↔ (p >>> (7 - c)) &&& 1 = 1 := by
  have e : (0x80 : Nat) >>> c = 1 <<< (7 - c) := by
    interval_cases c <;> rfl
  rw [e, and_shiftLeft_mask, Nat.and_one_is_mod, Nat.shiftLeft_eq]
  have hpos : 0 < 2 ^ (7 - c) := Nat.two_pow_pos _
  rcases Nat.mod_two_eq_zero_or_one (p >>> (7 - c)) with h | h
  · simp [h]
  · simp [h]

theorem spriteBit_lt (s : State) (r c : Nat) : spriteBit s r c = 0 ∨ spriteBit s r c = 1 := by
  unfold spriteBit
  rw [Nat.and_one_is_mod]
  exact Nat.mod_two_eq_zero_or_one _

theorem spriteCells_iff (s : State) (x y n j : Nat) :
    spriteCells s x y n j ↔
      ∃ r c, r < n ∧ c < 8 ∧ spriteBit s r c = 1 ∧ j = cellIndex (s.v x) (s.v y) r c := by
  unfold spriteCells spriteBit
  constructor
  · rintro ⟨r, hr, c, hc, hbit, hj⟩
    exact ⟨r, c, hr, hc, (mask_bit _ c hc).1 hbit, hj⟩
  · rintro ⟨r, c, hr, hc, hbit, hj⟩
    exact ⟨r, hr, c, hc, (mask_bit _ c hc).2 hbit, hj⟩

theorem cellIndex_inj {vx vy r c r2 c2 : Nat} (hc : c < 8) (hc2 : c2 < 8)
    (h : cellIndex vx vy r c = cellIndex vx vy r2 c2) : r = r2 ∧ c = c2 := by
  unfold cellIndex at h
  omega

/-- C8: for a state whose display cells are all 0 or 1, with `x`, `y` different from 15,
`I + n ≤ 4096` and `Vx + 7 + (Vy + n - 1) * 64 < 2048`, opcode `Dxyn` sets each cell
`Vx + c + (Vy + r) * 64` (`r < n`, `c < 8`) to its old value XOR bit `7 - c` of
`memory[I + r]`, leaves every other cell unchanged, and sets `V15` to 1 exactly when some
set sprite bit landed on a cell that held 1 before the draw, and to 0 otherwise. -/
theorem draw_semantics (env : Env) (s : State) (x y n : Nat) (hx : x < 15) (hy : y < 15)
    (hn : n < 16) (hpc : s.pc + 1 < 4096)
    (hop : fetchWord s = 0xD000 + x * 256 + y * 16 + n)
    (hbin : ∀ j, j < 2048 → s.display j = 0 ∨ s.display j = 1)
    (hI : s.I + n ≤ 4096) (hfit : s.v x + 7 + (s.v y + n - 1) * 64 < 2048) :
    ∃ s1, c8_emulate_cycle env s = some s1 ∧
      (∀ r c, r < n → c < 8 →
        s1.display (cellIndex (s.v x) (s.v y) r c) =
          s.display (cellIndex (s.v x) (s.v y) r c) ^^^ spriteBit s r c) ∧
      (∀ j, (∀ r c, r < n → c < 8 → j ≠ cellIndex (s.v x) (s.v y) r c) →
        s1.display j = s.display j) ∧
      (s1.v 15 = 1 ↔ ∃ r c, r < n ∧ c < 8 ∧ spriteBit s r c = 1 ∧
        s.display (cellIndex (s.v x) (s.v y) r c) = 1) ∧
      (s1.v 15 = 0 ↔ ¬ ∃ r c, r < n ∧ c < 8 ∧ spriteBit s r c = 1 ∧
        s.display (cellIndex (s.v x) (s.v y) r c) = 1) := by
  have hcell : ∀ r c, r < n → c < 8 → cellIndex (s.v x) (s.v y) r c < 2048 := by
    intro r c hr hc
    unfold cellIndex
    have h1 : (s.v y + r) * 64 ≤ (s.v y + n - 1) * 64 := Nat.mul_le_mul_right 64 (by omega)
    omega
  have hb : ∀ j, spriteCells s x y n j → j < 2048 := by
    rintro j ⟨r, hr, c, hc, -, rfl⟩
    exact hcell r c hr hc
  obtain ⟨s1, h1, -, -, -, -, hd, hk, hc, hnc⟩ := draw_cycle env s x y n hx hy hn hpc hop hI hb
  have hcol : (∃ j, spriteCells s x y n j ∧ s.display j = 1) ↔
      ∃ r c, r < n ∧ c < 8 ∧ spriteBit s r c = 1 ∧
        s.display (cellIndex (s.v x) (s.v y) r c) = 1 := by
    constructor
    · rintro ⟨j, hj, hone⟩
      obtain ⟨r, c, hr, hc, hbit, rfl⟩ := (spriteCells_iff s x y n j).1 hj
      exact ⟨r, c, hr, hc, hbit, hone⟩
    · rintro ⟨r, c, hr, hc, hbit, hone⟩
      exact ⟨_, (spriteCells_iff s x y n _).2 ⟨r, c, hr, hc, hbit, rfl⟩, hone⟩
  refine ⟨s1, h1, ?_, ?_, ?_, ?_⟩
  · intro r c hr hc
    rcases spriteBit_lt s r c with hbit | hbit
    · have hS : ¬ spriteCells s x y n (cellIndex (s.v x) (s.v y) r c) := by
        intro hS
        obtain ⟨r2, c2, -, hc2, hbit2, hj⟩ := (spriteCells_iff s x y n _).1 hS
        obtain ⟨rfl, rfl⟩ := cellIndex_inj hc hc2 hj
        omega
      rw [hk _ hS, hbit]
      simp
    · have hS : spriteCells s x y n (cellIndex (s.v x) (s.v y) r c) :=
        (spriteCells_iff s x y n _).2 ⟨r, c, hr, hc, hbit, rfl⟩
      rw [hd _ hS, hbit]
      rcases hbin _ (hcell r c hr hc) with h | h <;> rw [h] <;> rfl
  · intro j hj
    apply hk
    intro hS
    obtain ⟨r, c, hr, hc, -, rfl⟩ := (spriteCells_iff s x y n j).1 hS
    exact hj r c hr hc rfl
  · rw [← hcol]
    constructor
    · intro h
      by_contra hno
      rw [hnc hno] at h
      omega
    · exact hc
  · rw [← hcol]
    constructor
    · intro h hyes
      rw [hc hyes] at h
      omega
    · exact hnc

/-- Witness of `draw_semantics`: `D011` with `V0 = 3`, `V1 = 2`, sprite row `0xC0` and
cell 131 already set: cell 131 is cleared, cell 132 is set, and `V15 = 1`. -/
theorem draw_semantics_witness :
    ∃ s1, c8_emulate_cycle env0 sDrawHit = some s1 ∧
      s1.display 131 = 0 ∧ s1.display 132 = 1 ∧ s1.display 133 = 0 ∧ s1.v 15 = 1 := by
  obtain ⟨s1, h1, h2, h3, h4, -⟩ := draw_semantics env0 sDrawHit 0 1 1 (by decide) (by decide)
    (by decide) (by decide) (by decide)
    (by
      intro j _
      by_cases hj : j = 131
      · exact Or.inr (by simp [sDrawHit, hj])
      · exact Or.inl (by simp [sDrawHit, hj]))
    (by decide) (by decide)
  exact ⟨s1, h1, h2 0 0 (by decide) (by decide), h2 0 1 (by decide) (by decide),
    h2 0 2 (by decide) (by decide),
    h4.2 ⟨0, 0, by decide, by decide, by decide, by decide⟩⟩

/-- C7 (counterexample): drawing twice on a blank display with opcode `D010` (a sprite of
zero rows), or with `D011` and an all-zero sprite row, reports `V15 = 0` on the second
draw, not 1. -/
theorem double_draw_counterexample :
    ((c8_emulate_cycle env0 sDrawNone).bind (c8_emulate_cycle env0)).map (fun t => t.v 15)
      = some 0 ∧
    ((c8_emulate_cycle env0 sDrawZeroRow).bind (c8_emulate_cycle env0)).map (fun t => t.v 15)
      = some 0 := by
  decide

/-- C7 (amended): for `n` in `0..15`, a sprite of `n` rows at `memory[I..I+n)`, `x` and `y`
different from 15 and every touched display index inside the grid, `Dxyn` on a blank
display reports `V15 = 0`; executing the same `Dxyn` again (at any `pc` where it is
fetched) leaves the display blank and reports `V15 = 1` exactly when the sprite has at
least one set bit, and `V15 = 0` when it has none. -/
theorem double_draw (env env2 : Env) (s : State) (x y n q : Nat) (hx : x < 15) (hy : y < 15)
    (hn : n < 16) (hpc : s.pc + 1 < 4096)
    (hop : fetchWord s = 0xD000 + x * 256 + y * 16 + n)
    (hq : q + 1 < 4096)
    (hop2 : fetchWord { s with pc := q } = 0xD000 + x * 256 + y * 16 + n)
    (hblank : ∀ j, j < 2048 → s.display j = 0)
    (hI : s.I + n ≤ 4096)
    (hfit : ∀ r c, r < n → c < 8 → spriteBit s r c = 1 →
      cellIndex (s.v x) (s.v y) r c < 2048) :
    ∃ s1, c8_emulate_cycle env s = some s1 ∧ s1.v 15 = 0 ∧
      ∃ s2, c8_emulate_cycle env2 { s1 with pc := q } = some s2 ∧
        (∀ j, j < 2048 → s2.display j = 0) ∧
        (s2.v 15 = 1 ↔ ∃ r c, r < n ∧ c < 8 ∧ spriteBit s r c = 1) ∧
        (s2.v 15 = 0 ↔ ¬ ∃ r c, r < n ∧ c < 8 ∧ spriteBit s r c = 1) := by
  have hb : ∀ j, spriteCells s x y n j → j < 2048 := by
    intro j hj
    obtain ⟨r, c, hr, hc, hbit, rfl⟩ := (spriteCells_iff s x y n j).1 hj
    exact hfit r c hr hc hbit
  obtain ⟨s1, h1, hm, hI1, hv, -, hd, hk, -, hnc⟩ :=
    draw_cycle env s x y n hx hy hn hpc hop hI hb
  have hno : ¬ ∃ j, spriteCells s x y n j ∧ s.display j = 1 := by
    rintro ⟨j, hj, hone⟩
    rw [hblank j (hb j hj)] at hone
    omega
  have hS : ∀ j, spriteCells { s1 with pc := q } x y n j ↔ spriteCells s x y n j := by
    intro j
    simp only [spriteCells, hm, hI1, hv x (by omega), hv y (by omega)]
  have hw : fetchWord { s1 with pc := q } = 0xD000 + x * 256 + y * 16 + n := by
    rw [← hop2]
    simp [fetchWord, hm]
  obtain ⟨s2, h2, -, -, -, -, hd2, hk2, hc2, hnc2⟩ :=
    draw_cycle env2 { s1 with pc := q } x y n hx hy hn hq hw (by simpa [hI1] using hI)
      (fun j hj => hb j ((hS j).1 hj))
  have hcol : (∃ j, spriteCells { s1 with pc := q } x y n j ∧
      ({ s1 with pc := q } : State).display j = 1) ↔
      ∃ r c, r < n ∧ c < 8 ∧ spriteBit s r c = 1 := by
    constructor
    · rintro ⟨j, hj, -⟩
      obtain ⟨r, c, hr, hc, hbit, -⟩ := (spriteCells_iff s x y n j).1 ((hS j).1 hj)
      exact ⟨r, c, hr, hc, hbit⟩
    · rintro ⟨r, c, hr, hc, hbit⟩
      have hj : spriteCells s x y n (cellIndex (s.v x) (s.v y) r c) :=
        (spriteCells_iff s x y n _).2 ⟨r, c, hr, hc, hbit, rfl⟩
      refine ⟨_, (hS _).2 hj, ?_⟩
      show s1.display _ = 1
      rw [hd _ hj, hblank _ (hb _ hj)]
      rfl
  refine ⟨s1, h1, hnc hno, s2, h2, ?_, ?_, ?_⟩
  · intro j hj
    by_cases hSj : spriteCells s x y n j
    · rw [hd2 j ((hS j).2 hSj)]
      show (s1.display j ^^^ 1) % 256 = 0
      rw [hd j hSj, hblank j hj]
      rfl
    · rw [hk2 j (fun h => hSj ((hS j).1 h))]
      show s1.display j = 0
      rw [hk j hSj, hblank j hj]
  · rw [← hcol]
    constructor
    · intro h
      by_contra hno2
      rw [hnc2 hno2] at h
      omega
    · exact hc2
  · rw [← hcol]
    constructor
    · intro h hyes
      rw [hc2 hyes] at h
      omega
    · exact hnc2

/-- Witness of `double_draw`: `D011` at `0x200` and `0x202` with `V0 = 3`, `V1 = 2` and
sprite row `0xC0` on a blank display. -/
theorem double_draw_witness :
    ∃ s1, c8_emulate_cycle env0 sDraw = some s1 ∧ s1.v 15 = 0 ∧
      ∃ s2, c8_emulate_cycle env0 { s1 with pc := 0x202 } = some s2 ∧
        (∀ j, j < 2048 → s2.display j = 0) ∧ s2.v 15 = 1 := by
  obtain ⟨s1, h1, h2, s2, h3, h4, h5, -⟩ := double_draw env0 env0 sDraw 0 1 1 0x202
    (by decide) (by decide) (by decide) (by decide) (by decide) (by decide) (by decide)
    (fun _ _ => rfl) (by decide)
    (by
      intro r c hr hc _
      interval_cases r
      interval_cases c <;> decide)
  exact ⟨s1, h1, h2, s2, h3, h4, h5.2 ⟨0, 0, by decide, by decide, by decide⟩⟩

/-! ## Key wait (`Fx0A`) -/

theorem keyScan_idle (s : State) (x n : Nat) (hn : n ≤ 16)
    (hk : ∀ i, i < n → s.keys i = 0) :
    forLoop n (keyScanBody x) (s, false) = some (s, false) := by
  induction n with
  | zero => rfl
  | succ k ih =>
    have hk16 : k < 16 := by omega
    rw [forLoop, ih (by omega) (fun i hi => hk i (by omega))]
    simp [keyScanBody, rdKey, hk16, hk k (by omega)]

theorem keyScan_loop (s : State) (x : Nat) (hx : x < 16) (n : Nat) (hn : n ≤ 16) :
    ∃ t b, forLoop n (keyScanBody x) (s, false) = some (t, b) ∧ SameButV s t ∧
      (∀ i, i ≠ x → t.v i = s.v i) ∧
      ((∃ i, i < n ∧ s.keys i ≠ 0) → b = true ∧
        ∃ k, k < n ∧ s.keys k ≠ 0 ∧ (∀ j, k < j → j < n → s.keys j = 0) ∧ t.v x = k) := by
  induction n with
  | zero =>
    refine ⟨s, false, rfl, ⟨rfl, rfl, rfl, rfl, rfl, rfl, rfl, rfl, rfl, rfl, rfl, rfl⟩,
      fun _ _ => rfl, ?_⟩
    rintro ⟨i, hi, -⟩
    omega
  | succ k ih =>
    obtain ⟨t, b, hl, hs, hv, hp⟩ := ih (by omega)
    have hk16 : k < 16 := by omega
    by_cases hkey : s.keys k = 0
    · refine ⟨t, b, ?_, hs, hv, ?_⟩
      · rw [forLoop, hl]
        simp [keyScanBody, rdKey, hk16, hs.keys, hkey]
      · rintro ⟨i, hi, hne⟩
        have hik : i ≠ k := fun h => hne (h ▸ hkey)
        obtain ⟨hb, m, hm, hmk, hmax, hvm⟩ := hp ⟨i, by omega, hne⟩
        refine ⟨hb, m, by omega, hmk, ?_, hvm⟩
        intro j hj1 hj2
        by_cases hjk : j = k
        · rw [hjk]; exact hkey
        · exact hmax j hj1 (by omega)
    · refine ⟨{ t with v := store t.v x (k % 256) }, true, ?_, ?_, ?_, ?_⟩
      · rw [forLoop, hl]
        simp [keyScanBody, rdKey, hk16, hs.keys, hkey, wrV, hx]
      · exact ⟨hs.memory, hs.delay_timer, hs.sound_timer, hs.display, hs.keys, hs.stack,
          hs.sp, hs.I, hs.pc, hs.opcode, hs.last_delay_update, hs.last_sound_update⟩
      · intro i hi
        simp [store, hi, hv i hi]
      · intro _
        refine ⟨rfl, k, by omega, hkey, ?_, ?_⟩
        · intro j hj1 hj2
          omega
        · simp [store]
          omega

theorem key_wait_idle (env : Env) (s : State) (x : Nat) (hx : x < 16)
    (hpc : s.pc + 1 < 4096) (hop : fetchWord s = 0xF00A + x * 256)
    (hk : ∀ i, i < 16 → s.keys i = 0) :
    c8_emulate_cycle env s = some { s with opcode := fetchWord s } := by
  have hF : fetchWord s &&& 0xF000 = 0xF000 := by rw [and_F000]; omega
  have hA : fetchWord s &&& 0x00FF = 0x0A := by rw [and_00FF]; omega
  have hl := keyScan_idle { s with opcode := fetchWord s } (opX (fetchWord s)) 16
    (Nat.le_refl 16) hk
  rw [cycle_misc env s hpc hF]
  simp [execMisc, hA, hl]

theorem key_wait_repeat (envs : List Env) (x : Nat) (hx : x < 16) :
    ∀ s : State, s.pc + 1 < 4096 → fetchWord s = 0xF00A + x * 256 →
      (∀ i, i < 16 → s.keys i = 0) →
      ∃ sN, runCycles envs s = some sN ∧ SameButV { s with opcode := sN.opcode } sN ∧
        sN.v = s.v := by
  induction envs with
  | nil =>
    intro s _ _ _
    exact ⟨s, rfl, ⟨rfl, rfl, rfl, rfl, rfl, rfl, rfl, rfl, rfl, rfl, rfl, rfl⟩, rfl⟩
  | cons e es ih =>
    intro s hpc hop hk
    obtain ⟨sN, hN, hs, hv⟩ := ih { s with opcode := fetchWord s } hpc hop hk
    refine ⟨sN, ?_, ?_, hv⟩
    · rw [runCycles, key_wait_idle e s x hx hpc hop hk]
      exact hN
    · exact ⟨hs.memory, hs.delay_timer, hs.sound_timer, hs.display, hs.keys, hs.stack,
        hs.sp, hs.I, hs.pc, rfl, hs.last_delay_update, hs.last_sound_update⟩

/-- C11: when all 16 keys are 0, opcode `Fx0A` leaves `pc`, the registers, `I`, memory,
display, stack, `sp` and both timers unchanged, and so does any number of repeated
cycles; when some key is nonzero it advances `pc` by 2 and sets `Vx` to the index of
the highest-indexed pressed key. -/
theorem key_wait (env : Env) (s : State) (x : Nat) (hx : x < 16)
    (hpc : s.pc + 1 < 4096) (hop : fetchWord s = 0xF00A + x * 256) :
    ((∀ i, i < 16 → s.keys i = 0) →
      (∃ s1, c8_emulate_cycle env s = some s1 ∧ s1.pc = s.pc ∧ s1.v = s.v ∧ s1.I = s.I ∧
        s1.memory = s.memory ∧ s1.display = s.display ∧ s1.stack = s.stack ∧
        s1.sp = s.sp ∧ s1.delay_timer = s.delay_timer ∧ s1.sound_timer = s.sound_timer) ∧
      ∀ envs : List Env, ∃ sN, runCycles envs s = some sN ∧ sN.pc = s.pc) ∧
    ((∃ i, i < 16 ∧ s.keys i ≠ 0) →
      ∃ s1, c8_emulate_cycle env s = some s1 ∧ s1.pc = s.pc + 2 ∧
        ∃ k, k < 16 ∧ s.keys k ≠ 0 ∧ (∀ j, k < j → j < 16 → s.keys j = 0) ∧ s1.v x = k) := by
  constructor
  · intro hk
    constructor
    · exact ⟨_, key_wait_idle env s x hx hpc hop hk, rfl, rfl, rfl, rfl, rfl, rfl, rfl, rfl,
        rfl⟩
    · intro envs
      obtain ⟨sN, hN, hs, -⟩ := key_wait_repeat envs x hx s hpc hop hk
      exact ⟨sN, hN, hs.pc⟩
  · intro hk
    have hF : fetchWord s &&& 0xF000 = 0xF000 := by rw [and_F000]; omega
    have hA : fetchWord s &&& 0x00FF = 0x0A := by rw [and_00FF]; omega
    have hX : opX (fetchWord s) = x := by rw [opX_eq]; omega
    obtain ⟨t, b, hl, hs, -, hp⟩ := keyScan_loop { s with opcode := fetchWord s } x hx 16
      (Nat.le_refl 16)
    obtain ⟨hb, k, hk16, hkk, hmax, hvk⟩ := hp hk
    subst hb
    refine ⟨update_timers env (addPc t 2), ?_, ?_, k, hk16, hkk, hmax, ?_⟩
    · rw [cycle_misc env s hpc hF]
      simp [execMisc, hA, hX, hl]
    · have := hs.pc
      simp only [addPc, update_timers_pc] at this ⊢
      rw [this]
      show (s.pc + 2) % 65536 = s.pc + 2
      omega
    · simpa [addPc] using hvk

/-- Witness of `key_wait`: `F10A` with no key pressed keeps `pc = 0x200` and
`delay_timer = 5`; with the keys 3 and 9 pressed it gives `pc = 0x202` and `V1 = 9`. -/
theorem key_wait_witness :
    (∃ s1, c8_emulate_cycle env0 sKeyIdle = some s1 ∧ s1.pc = 0x200 ∧ s1.delay_timer = 5) ∧
    (∃ sN, runCycles [env0, env0, env0] sKeyIdle = some sN ∧ sN.pc = 0x200) ∧
    (∃ s1, c8_emulate_cycle env0 sKeyDown = some s1 ∧ s1.pc = 0x202 ∧ s1.v 1 = 9) := by
  have h1 := (key_wait env0 sKeyIdle 1 (by decide) (by decide) (by decide)).1
    (fun _ _ => rfl)
  have h2 := (key_wait env0 sKeyDown 1 (by decide) (by decide) (by decide)).2
    ⟨3, by decide, by decide⟩
  obtain ⟨⟨s1, e1, hp1, -, -, -, -, -, -, hd1, -⟩, hrep⟩ := h1
  obtain ⟨s2, e2, hp2, k, hk, hkk, hmax, hv⟩ := h2
  refine ⟨⟨s1, e1, hp1, hd1⟩, hrep [env0, env0, env0], s2, e2, hp2, ?_⟩
  rw [hv]
  have h9 : ¬ k < 9 := fun h => absurd (hmax 9 h (by decide)) (by decide)
  have hle : k ≤ 9 := by
    by_contra hgt
    have : sKeyDown.keys k = 0 := by
      have h3 : k ≠ 3 := by omega
      have h9 : k ≠ 9 := by omega
      simp [sKeyDown, h3, h9]
    exact hkk this
  omega

/-! ## Load capacity check (`c8_load_game`) -/

/-- What the asserted condition of `c8_load_game` computes for a `size_t` of at least 13
bits: it holds exactly for the sizes below 3584 and for those above 4096. -/
theorem load_fits_actual (w size : Nat) (hw : 13 ≤ w) (hs : size < 2 ^ w) :
    c8_load_fits w size = true ↔ (size < 3584 ∨ 4096 < size) := by
  have h13 : (2 : Nat) ^ 13 ≤ 2 ^ w := Nat.pow_le_pow_right (by decide) hw
  have hpos : (0 : Int) < 2 ^ w := by positivity
  have hcast : ((2 ^ w : Nat) : Int) = (2 : Int) ^ w := by push_cast; rfl
  have e1 : sizeT w 512 = 512 := by
    unfold sizeT
    rw [Int.emod_eq_of_lt (by decide) (by omega)]
    rfl
  have e2 : sizeT w size = size := by
    unfold sizeT
    rw [Int.emod_eq_of_lt (by omega) (by omega)]
    rfl
  unfold c8_load_fits
  rw [e1, e2, decide_eq_true_iff]
  by_cases hle : size ≤ 4096
  · have e3 : sizeT w ((4096 : Int) - (size : Int)) = 4096 - size := by
      unfold sizeT
      rw [Int.emod_eq_of_lt (by omega) (by omega)]
      omega
    rw [e3]
    omega
  · have e3 : sizeT w ((4096 : Int) - (size : Int)) = 2 ^ w + 4096 - size := by
      unfold sizeT
      have : ((4096 : Int) - (size : Int)) % 2 ^ w = (4096 : Int) - size + 2 ^ w := by
        rw [← Int.add_emod_self, Int.emod_eq_of_lt (by omega) (by omega)]
      rw [this]
      omega
    rw [e3]
    omega

/-- C12 (evaluation at the failing inputs): with a 64-bit `size_t` the asserted condition
of `c8_load_game` fails for a size of 3584 bytes (which fits, `512 + 3584 = 4096`) and
holds for sizes of 4097 and 100000 bytes (which do not fit). -/
theorem load_fits_eval :
    c8_load_fits 64 3584 = false ∧ c8_load_fits 64 4097 = true ∧
      c8_load_fits 64 100000 = true := by
  decide

/-! ## Index addition (`Fx1E`) -/

/-- What opcode `Fx1E` computes for `x` different from 15: `I` receives `I + Vx` modulo
`2^16`, and the flag is 1 exactly when `I + Vx > 32767`. -/
theorem index_add_actual (env : Env) (s : State) (x : Nat) (hx : x < 15)
    (hpc : s.pc + 1 < 4096) (hop : fetchWord s = 0xF01E + x * 256) :
    ∃ s1, c8_emulate_cycle env s = some s1 ∧ s1.I = (s.I + s.v x) % 65536 ∧
      s1.v 15 = (if s.I + s.v x > 32767 then 1 else 0) := by
  have hF : fetchWord s &&& 0xF000 = 0xF000 := by rw [and_F000]; omega
  have hE : fetchWord s &&& 0x00FF = 0x1E := by rw [and_00FF]; omega
  have hX : opX (fetchWord s) = x := by rw [opX_eq]; omega
  have hx16 : x < 16 := by omega
  have hx15 : x ≠ 15 := by omega
  rw [cycle_misc env s hpc hF]
  by_cases hlt : (s.I : Int) > INT16_MAX - (s.v x : Int)
  · have h2 : s.I + s.v x > 32767 := by unfold INT16_MAX at hlt; omega
    simp [execMisc, hE, hX, rdV, wrV, hx16, hlt, store, hx15, addPc, h2]
  · have h2 : ¬ s.I + s.v x > 32767 := by unfold INT16_MAX at hlt; omega
    simp [execMisc, hE, hX, rdV, wrV, hx16, hlt, store, hx15, addPc, h2]

/-- C13 (evaluation at the failing input): on opcode `F11E` with `I = 0xFFF` and `V1 = 1`
the cycle leaves `I = 0x1000` and `V15 = 0`, although `I + Vx = 0x1000 > 0xFFF`. -/
theorem index_add_eval :
    (c8_emulate_cycle env0 sIndexAdd).map (fun t => (t.I, t.v 15)) = some (0x1000, 0) := by
  decide

/-! ## Reset (`c8_init`) -/

/-- C15: after `c8_init`, `memory[i]` is `chip8_fontset[i]` for `i < 80` and 0 for
`80 ≤ i < 4096`, the 16 registers, the 2048 display cells and the 16 stack slots are 0,
`sp = 0`, `I = 0`, `opcode = 0` and `pc = 0x200`, whatever the prior state. -/
theorem init_state (now : Int) (s : State) :
    chip8_fontset.length = 80 ∧
    (∀ i, i < 80 → (c8_init now s).memory i = chip8_fontset.getD i 0) ∧
    (∀ i, 80 ≤ i → i < 4096 → (c8_init now s).memory i = 0) ∧
    (∀ i, i < 16 → (c8_init now s).v i = 0) ∧
    (∀ i, i < 2048 → (c8_init now s).display i = 0) ∧
    (∀ i, i < 16 → (c8_init now s).stack i = 0) ∧
    (c8_init now s).sp = 0 ∧ (c8_init now s).I = 0 ∧ (c8_init now s).opcode = 0 ∧
    (c8_init now s).pc = 0x200 := by
  refine ⟨rfl, ?_, ?_, ?_, ?_, ?_, rfl, rfl, rfl, rfl⟩
  · intro i hi
    simp [c8_init, memcpy, hi]
  · intro i h1 h2
    have : ¬ i < 80 := by omega
    simp [c8_init, memcpy, memset0, this, h2]
  · intro i hi
    simp [c8_init, memset0, hi]
  · intro i hi
    simp [c8_init, memset0, hi]
  · intro i hi
    simp [c8_init, memset0, hi]

/-- Witness of `init_state` on a machine whose every cell holds 7: the first and the last
font bytes, the first cell after the font, and one cell of each array. -/
theorem init_state_witness :
    (c8_init 0 sDirty).memory 0 = 0xF0 ∧ (c8_init 0 sDirty).memory 79 = 0x80 ∧
    (c8_init 0 sDirty).memory 80 = 0 ∧ (c8_init 0 sDirty).memory 4095 = 0 ∧
    (c8_init 0 sDirty).v 15 = 0 ∧ (c8_init 0 sDirty).display 2047 = 0 ∧
    (c8_init 0 sDirty).stack 15 = 0 ∧ (c8_init 0 sDirty).pc = 0x200 := by
  obtain ⟨-, h1, h2, h3, h4, h5, -, -, -, h9⟩ := init_state 0 sDirty
  exact ⟨h1 0 (by decide), h1 79 (by decide), h2 80 (by decide) (by decide),
    h2 4095 (by decide) (by decide), h3 15 (by decide), h4 2047 (by decide),
    h5 15 (by decide), h9⟩

/-! ## The case `0x0000` of the opcode switch -/

theorem clear_loop (s : State) (n : Nat) (hn : n ≤ 2048) :
    ∃ t, forLoop n (fun i t => wrDisp t i 0) s = some t ∧ Frame s t ∧ t.v = s.v ∧
      ∀ j, t.display j = if j < n then 0 else s.display j := by
  induction n with
  | zero => exact ⟨s, rfl, Frame.refl s, rfl, fun j => by simp⟩
  | succ k ih =>
    obtain ⟨t, ht, hf, hv, hd⟩ := ih (by omega)
    have hk : k < 2048 := by omega
    refine ⟨{ t with display := store t.display k 0 }, ?_, ?_, hv, ?_⟩
    · rw [forLoop, ht]
      simp [wrDisp, hk]
    · exact ⟨hf.opcode, hf.I, hf.memory, hf.pc, hf.v, hf.stack, hf.sp, hf.keys,
        hf.delay_timer, hf.sound_timer, hf.last_delay_update, hf.last_sound_update⟩
    · intro j
      simp only [store, hd]
      by_cases hj : j = k
      · subst hj
        simp
      · have h1 : j < k + 1 ↔ j < k := by omega
        simp [hj, h1]

/-- What the first branch of the case `0x0000` does: every opcode with top nibble 0 and
low nibble 0 clears the 2048 display cells and advances `pc` by 2, leaving registers,
`I`, memory, stack and `sp` unchanged. -/
theorem clear_cycle (env : Env) (s : State) (hpc : s.pc + 1 < 4096)
    (h0 : fetchWord s &&& 0xF000 = 0) (hlow : fetchWord s &&& 0x000F = 0) :
    ∃ s1, c8_emulate_cycle env s = some s1 ∧ (∀ j, j < 2048 → s1.display j = 0) ∧
      s1.pc = s.pc + 2 ∧ s1.v = s.v ∧ s1.I = s.I ∧ s1.memory = s.memory ∧
      s1.stack = s.stack ∧ s1.sp = s.sp := by
  obtain ⟨t, ht, hf, hv, hd⟩ := clear_loop { s with opcode := fetchWord s } 2048
    (Nat.le_refl 2048)
  refine ⟨update_timers env (addPc t 2), ?_, ?_, ?_, ?_, ?_, ?_, ?_, ?_⟩
  · rw [cycle_eq env s hpc]
    simp only [execute, h0, hlow, c8_clear_screen]
    simp [ht]
  · intro j hj
    simp [addPc, hd, hj]
  · have := hf.pc
    simp only [addPc, update_timers_pc] at this ⊢
    rw [this]
    show (s.pc + 2) % 65536 = s.pc + 2
    omega
  · simpa [addPc] using hv
  · simpa [addPc] using hf.I
  · simpa [addPc] using hf.memory
  · simpa [addPc] using hf.stack
  · simpa [addPc] using hf.sp

/-- C16: after a cycle on opcode `00E0` every one of the 2048 display cells is 0, `pc`
has advanced by 2, and registers, `I`, memory, stack and `sp` are unchanged. -/
theorem clear_screen_cycle (env : Env) (s : State) (hpc : s.pc + 1 < 4096)
    (hop : fetchWord s = 0x00E0) :
    ∃ s1, c8_emulate_cycle env s = some s1 ∧ (∀ j, j < 2048 → s1.display j = 0) ∧
      s1.pc = s.pc + 2 ∧ s1.v = s.v ∧ s1.I = s.I ∧ s1.memory = s.memory ∧
      s1.stack = s.stack ∧ s1.sp = s.sp :=
  clear_cycle env s hpc (by rw [hop]; decide) (by rw [hop]; decide)

/-- Witness of `clear_screen_cycle`: `00E0` at `0x200` on a display of ones. -/
theorem clear_screen_cycle_witness :
    ∃ s1, c8_emulate_cycle env0 sClear = some s1 ∧ (∀ j, j < 2048 → s1.display j = 0) ∧
      s1.pc = 0x202 ∧ s1.v 3 = 9 := by
  obtain ⟨s1, h1, h2, h3, h4, -⟩ := clear_screen_cycle env0 sClear (by decide) (by decide)
  exact ⟨s1, h1, h2, h3, by rw [h4]; rfl⟩

/-- C17 (evaluation at the failing inputs): opcode `0230` clears a display of ones (cell 0
goes from 1 to 0), and opcode `00E1` with `sp = 1`, `stack[0] = 0x300` pops the stack
(`sp` becomes 0 and `pc` becomes `0x302`). -/
theorem native_call_eval :
    (sNativeClear.display 0 = 1 ∧
      ∃ s1, c8_emulate_cycle env0 sNativeClear = some s1 ∧ s1.display 0 = 0) ∧
    (c8_emulate_cycle env0 sNativePop).map (fun t => (t.sp, t.pc)) = some (0, 0x302) := by
  refine ⟨⟨rfl, ?_⟩, by decide⟩
  obtain ⟨s1, h1, h2, -⟩ := clear_cycle env0 sNativeClear (by decide) (by decide) (by decide)
  exact ⟨s1, h1, h2 0 (by decide)⟩

/-- C18 (evaluation at the failing inputs): on opcode `0123` at `pc = 0x200` the cycle
leaves `pc = 0x200`, and on opcode `00E1` with `stack[0] = 0x300` it sets `pc = 0x302`;
neither is `pc + 2 = 0x202`. -/
theorem pc_advance_eval :
    (c8_emulate_cycle env0 sNativeStall).map (fun t => t.pc) = some 0x200 ∧
    (c8_emulate_cycle env0 sNativePop).map (fun t => t.pc) = some 0x302 := by
  decide

/-! ## Timer update -/

/-- C20 (evaluation at the failing input): on opcode `8126` the fetch succeeds, the
second statement of the `8xy6` case reads the register array at index
`opcode & 0x00F0 = 32`, and that read is outside the 16 registers. -/
theorem reg_index_eval :
    (c8_fetch sShrHigh).map (fun t => (t.opcode, t.opcode &&& 0x00F0)) = some (0x8126, 32) ∧
    (∀ t : State, rdV t 32 = none) ∧
    c8_emulate_cycle env0 sShrHigh = none := by
  refine ⟨by decide, fun t => rfl, rfl⟩

/-! ## Invariants preserved by the opcode switch -/

theorem forLoop_inv {σ : Type} (P : σ → Prop) (body : Nat → σ → Option σ)
    (hbody : ∀ i t t1, P t → body i t = some t1 → P t1) :
    ∀ (n : Nat) (s s1 : σ), P s → forLoop n body s = some s1 → P s1 := by
  intro n
  induction n with
  | zero =>
    intro s s1 hP h
    simp only [forLoop, Option.some.injEq] at h
    rw [← h]
    exact hP
  | succ k ih =>
    intro s s1 hP h
    simp only [forLoop, Option.bind_eq_some] at h
    obtain ⟨t, ht, hb⟩ := h
    exact hbody k t s1 (ih s t hP ht) hb

theorem wrV_inv {P : State → Prop} (hc : Closed P) {s t : State} {i x : Nat}
    (h : wrV s i x = some t) (hP : P s) : P t := by
  unfold wrV at h
  split at h
  · simp only [Option.some.injEq] at h
    rw [← h]
    exact hc.v s _ hP
  · simp at h

theorem wrMem_inv {P : State → Prop} (hc : Closed P) {s t : State} {i x : Nat}
    (h : wrMem s i x = some t) (hP : P s) : P t := by
  unfold wrMem at h
  split at h
  · simp only [Option.some.injEq] at h
    rw [← h]
    exact hc.memory s _ hP
  · simp at h

theorem wrStack_inv {P : State → Prop} (hc : Closed P) {s t : State} {i x : Nat}
    (h : wrStack s i x = some t) (hP : P s) : P t := by
  unfold wrStack at h
  split at h
  · simp only [Option.some.injEq] at h
    rw [← h]
    exact hc.stack s _ hP
  · simp at h

theorem addPc_inv {P : State → Prop} (hc : Closed P) (s : State) (k : Nat) (hP : P s) :
    P (addPc s k) :=
  hc.pc s _ hP

theorem OptAll.some {α : Type} {Q : α → Prop} {a : α} (h : Q a) : OptAll Q (some a) := by
  intro b hb
  simp only [Option.some.injEq] at hb
  rw [← hb]
  exact h

theorem OptAll.none {α : Type} {Q : α → Prop} : OptAll Q (none : Option α) := by
  intro b hb
  simp at hb

theorem OptAll.ite {α : Type} {Q : α → Prop} {c : Prop} [Decidable c] {x y : Option α}
    (hx : c → OptAll Q x) (hy : ¬ c → OptAll Q y) : OptAll Q (if c then x else y) := by
  by_cases h : c
  · rw [if_pos h]
    exact hx h
  · rw [if_neg h]
    exact hy h

theorem OptAll.bind {α β : Type} {R : α → Prop} {Q : β → Prop} {o : Option α}
    {f : α → Option β} (ho : OptAll R o) (hf : ∀ a, R a → OptAll Q (f a)) :
    OptAll Q (o.bind f) := by
  intro b hb
  simp only [Option.bind_eq_some] at hb
  obtain ⟨a, ha, hfa⟩ := hb
  exact hf a (ho a ha) b hfa

theorem OptAll.bind_any {α β : Type} {Q : β → Prop} {o : Option α} {f : α → Option β}
    (hf : ∀ a, OptAll Q (f a)) : OptAll Q (o.bind f) :=
  OptAll.bind (R := fun _ => True) (fun _ _ => trivial) (fun a _ => hf a)

theorem wrV_all {P : State → Prop} (hc : Closed P) {s : State} (i x : Nat) (hP : P s) :
    OptAll P (wrV s i x) :=
  fun _ h => wrV_inv hc h hP

theorem wrMem_all {P : State → Prop} (hc : Closed P) {s : State} (i x : Nat) (hP : P s) :
    OptAll P (wrMem s i x) :=
  fun _ h => wrMem_inv hc h hP

theorem wrStack_all {P : State → Prop} (hc : Closed P) {s : State} (i x : Nat) (hP : P s) :
    OptAll P (wrStack s i x) :=
  fun _ h => wrStack_inv hc h hP

theorem forLoop_all {σ : Type} (P : σ → Prop) (body : Nat → σ → Option σ)
    (hbody : ∀ i t, P t → OptAll P (body i t)) (n : Nat) (s : σ) (hP : P s) :
    OptAll P (forLoop n body s) :=
  fun s1 h => forLoop_inv P body (fun i t t1 ht hb => hbody i t ht t1 hb) n s s1 hP h

theorem drawPixel_all {P : State → Prop} (hc : Closed P) (r p c : Nat) (s : State)
    (hP : P s) : OptAll P (drawPixel r p c s) := by
  unfold drawPixel
  simp only [Option.bind_eq_bind]
  refine OptAll.ite (fun _ => ?_) (fun _ => OptAll.some hP)
  refine OptAll.bind_any (fun vx => ?_)
  refine OptAll.bind_any (fun vy => ?_)
  refine OptAll.bind_any (fun d => ?_)
  have tail : ∀ y : State, P y → OptAll P
      ((rdV y (opX y.opcode)).bind fun vx1 => (rdV y (opY y.opcode)).bind fun vy1 =>
        (rdDisp y (vx1 + c + (vy1 + r) * 64)).bind fun d1 =>
          wrDisp y (vx1 + c + (vy1 + r) * 64) (d1 ^^^ 1)) := by
    intro y hy
    refine OptAll.bind_any (fun vx1 => ?_)
    refine OptAll.bind_any (fun vy1 => ?_)
    intro t ht
    simp only [Option.bind_eq_some] at ht
    obtain ⟨d1, hd1, hw⟩ := ht
    unfold rdDisp at hd1
    unfold wrDisp at hw
    split at hd1
    · rename_i hi
      simp only [Option.some.injEq] at hd1
      rw [if_pos hi] at hw
      simp only [Option.some.injEq] at hw
      rw [← hw, ← hd1]
      exact hc.flip y _ hi hy
    · simp at hd1
  refine OptAll.ite (fun _ => ?_) (fun _ => ?_)
  · exact OptAll.bind (wrV_all hc 15 1 hP) tail
  · exact OptAll.bind (OptAll.some hP) tail

theorem drawRow_all {P : State → Prop} (hc : Closed P) (r : Nat) (s : State) (hP : P s) :
    OptAll P (drawRow r s) := by
  unfold drawRow
  simp only [Option.bind_eq_bind]
  exact OptAll.bind_any (fun p => forLoop_all P _ (fun c t ht => drawPixel_all hc r p c t ht) 8 s hP)

theorem execDraw_all {P : State → Prop} (hc : Closed P) (s : State) (hP : P s) :
    OptAll P (execDraw s) := by
  unfold execDraw
  simp only [Option.bind_eq_bind]
  refine OptAll.bind (wrV_all hc 15 0 hP) (fun s1 h1 => ?_)
  refine OptAll.bind (forLoop_all P _ (fun r t ht => drawRow_all hc r t ht) _ s1 h1)
    (fun s2 h2 => ?_)
  exact OptAll.some (addPc_inv hc s2 2 h2)

theorem clear_all {P : State → Prop} (hc : Closed P) (s : State) (hP : P s) :
    OptAll P (c8_clear_screen s) := by
  unfold c8_clear_screen
  refine forLoop_all P _ (fun i t ht => ?_) _ s hP
  intro u hu
  unfold wrDisp at hu
  split at hu
  · rename_i hi
    simp only [Option.some.injEq] at hu
    rw [← hu]
    exact hc.clear t i hi ht
  · simp at hu

theorem execArith_all {P : State → Prop} (hc : Closed P) (s : State) (hP : P s) :
    OptAll P (execArith s) := by
  unfold execArith
  simp only [Option.bind_eq_bind]
  repeat (first
    | exact OptAll.some (addPc_inv hc _ 2 (by assumption))
    | refine OptAll.ite (fun _ => ?_) (fun _ => ?_)
    | refine OptAll.bind (wrV_all hc _ _ (by assumption)) (fun _ _ => ?_)
    | refine OptAll.bind (OptAll.ite (fun _ => wrV_all hc _ _ (by assumption))
        (fun _ => wrV_all hc _ _ (by assumption))) (fun _ _ => ?_)
    | refine OptAll.bind_any (fun _ => ?_))
theorem regStoreBody_all {P : State → Prop} (hc : Closed P) (i : Nat) (s : State)
    (hP : P s) : OptAll P (regStoreBody i s) := by
  unfold regStoreBody
  simp only [Option.bind_eq_bind]
  exact OptAll.bind_any (fun vi => wrMem_all hc _ vi hP)

theorem regLoadBody_all {P : State → Prop} (hc : Closed P) (i : Nat) (s : State)
    (hP : P s) : OptAll P (regLoadBody i s) := by
  unfold regLoadBody
  simp only [Option.bind_eq_bind]
  exact OptAll.bind_any (fun m => wrV_all hc i m hP)

theorem keyScanBody_all {P : State → Prop} (hc : Closed P) (x i : Nat) (r : State × Bool)
    (hP : P r.1) : OptAll (fun r : State × Bool => P r.1) (keyScanBody x i r) := by
  unfold keyScanBody
  simp only [Option.bind_eq_bind]
  refine OptAll.bind_any (fun k => ?_)
  refine OptAll.ite (fun _ => ?_) (fun _ => OptAll.some hP)
  exact OptAll.bind (wrV_all hc x i hP) (fun s1 h1 => OptAll.some h1)

theorem execMisc_all {P : State → Prop} (hc : Closed P) (env : Env) (s : State)
    (hdel : s.opcode &&& 0x00FF = 0x0015 →
      ∀ (u : State) (d : Nat) (l : Int), P u → P { u with delay_timer := d, last_delay_update := l })
    (hsnd : s.opcode &&& 0x00FF = 0x0018 →
      ∀ (u : State) (d : Nat) (l : Int), P u → P { u with sound_timer := d, last_sound_update := l })
    (hP : P s) :
    OptAll (fun r : State × Bool => P r.1 ∧ (r.2 = true → s.opcode &&& 0x00FF = 0x000A))
      (execMisc env s) := by
  unfold execMisc
  simp only [Option.bind_eq_bind]
  repeat' (first
    | exact OptAll.some ⟨addPc_inv hc _ 2 (by assumption), by simp⟩
    | exact OptAll.some ⟨by assumption, fun _ => by assumption⟩
    | exact OptAll.some ⟨addPc_inv hc _ 2 (hdel (by assumption) _ _ _ hP), by simp⟩
    | exact OptAll.some ⟨addPc_inv hc _ 2 (hsnd (by assumption) _ _ _ hP), by simp⟩
    | exact OptAll.some ⟨addPc_inv hc _ 2 (hc.I _ _ (by assumption)), by simp⟩
    | refine OptAll.ite (fun _ => ?_) (fun _ => ?_)
    | refine OptAll.bind (wrV_all hc _ _ (by assumption)) (fun _ _ => ?_)
    | refine OptAll.bind (wrMem_all hc _ _ (by assumption)) (fun _ _ => ?_)
    | refine OptAll.bind (forLoop_all (fun r : State × Bool => P r.1) _
        (fun i t ht => keyScanBody_all hc _ i t ht) 16 _ hP) (fun _ _ => ?_)
    | refine OptAll.bind (forLoop_all P _ (fun i t ht => regStoreBody_all hc i t ht) _ _ hP)
        (fun _ _ => ?_)
    | refine OptAll.bind (forLoop_all P _ (fun i t ht => regLoadBody_all hc i t ht) _ _ hP)
        (fun _ _ => ?_)
    | refine OptAll.bind_any (fun _ => ?_))
theorem OptAll.mono {α : Type} {R Q : α → Prop} {o : Option α} (h : ∀ a, R a → Q a)
    (ho : OptAll R o) : OptAll Q o :=
  fun a ha => h a (ho a ha)

theorem execute_all {P : State → Prop} (hc : Closed P) (env : Env) (s : State)
    (hdel : s.opcode &&& 0xF000 = 0xF000 → s.opcode &&& 0x00FF = 0x0015 →
      ∀ (u : State) (d : Nat) (l : Int), P u → P { u with delay_timer := d, last_delay_update := l })
    (hsnd : s.opcode &&& 0xF000 = 0xF000 → s.opcode &&& 0x00FF = 0x0018 →
      ∀ (u : State) (d : Nat) (l : Int), P u → P { u with sound_timer := d, last_sound_update := l })
    (hP : P s) :
    OptAll (fun r : State × Bool => P r.1 ∧
        (r.2 = true → s.opcode &&& 0xF000 = 0xF000 ∧ s.opcode &&& 0x00FF = 0x000A))
      (execute env s) := by
  unfold execute
  simp only [Option.bind_eq_bind]
  refine OptAll.ite (fun _ => ?_) (fun _ => ?_)
  · refine OptAll.ite (fun _ => ?_) (fun _ => ?_)
    · refine OptAll.bind (clear_all hc s hP) (fun _ _ => ?_)
      exact OptAll.some ⟨addPc_inv hc _ _ (by assumption), by simp⟩
    · refine OptAll.ite (fun _ => ?_) (fun _ => ?_)
      · refine OptAll.bind_any (fun a => ?_)
        have h1 : P { s with sp := u16 ((s.sp : Int) - 1) } := hc.sp s _ hP
        have h2 : P { ({ s with sp := u16 ((s.sp : Int) - 1) } : State) with pc := a } :=
          hc.pc _ _ h1
        exact OptAll.some ⟨addPc_inv hc _ 2 h2, by simp⟩
      · exact OptAll.some ⟨hP, by simp⟩
  repeat' (first
    | exact OptAll.mono (fun r hr => ⟨hr.1, fun hb => ⟨by assumption, hr.2 hb⟩⟩)
        (execMisc_all hc env s (hdel (by assumption)) (hsnd (by assumption)) hP)
    | refine OptAll.ite (fun _ => ?_) (fun _ => ?_)
    | refine OptAll.bind (wrV_all hc _ _ (by assumption)) (fun _ _ => ?_)
    | refine OptAll.bind (execArith_all hc s hP) (fun _ _ => ?_)
    | refine OptAll.bind (execDraw_all hc s hP) (fun _ _ => ?_)
    | exact OptAll.bind (wrStack_all hc _ _ hP)
        (fun s1 h1 => OptAll.some
          ⟨hc.pc { s1 with sp := (s1.sp + 1) % 65536 } _ (hc.sp s1 _ h1), by simp⟩)
    | refine OptAll.bind_any (fun _ => ?_)
    | exact OptAll.some ⟨by assumption, by simp⟩
    | exact OptAll.some ⟨addPc_inv hc _ _ (by assumption), by simp⟩
    | exact OptAll.some ⟨hc.pc s _ hP, by simp⟩
    | exact OptAll.some ⟨addPc_inv hc _ _ (hc.I s _ hP), by simp⟩)

/-- A predicate that survives the state updates of the opcode switch and the timer update
survives a whole cycle. -/
theorem cycle_inv {P : State → Prop} (hc : Closed P) (env : Env) (s s1 : State)
    (hdel : fetchWord s &&& 0xF000 = 0xF000 → fetchWord s &&& 0x00FF = 0x0015 →
      ∀ (u : State) (d : Nat) (l : Int), P u → P { u with delay_timer := d, last_delay_update := l })
    (hsnd : fetchWord s &&& 0xF000 = 0xF000 → fetchWord s &&& 0x00FF = 0x0018 →
      ∀ (u : State) (d : Nat) (l : Int), P u → P { u with sound_timer := d, last_sound_update := l })
    (htim : ∀ u, P u → P (update_timers env u))
    (hP : P s) (h : c8_emulate_cycle env s = some s1) : P s1 := by
  unfold c8_emulate_cycle c8_fetch at h
  simp only [Option.bind_eq_bind, Option.bind_eq_some, Option.some.injEq] at h
  obtain ⟨s0, ⟨a, -, b, -, rfl⟩, r, hr, h⟩ := h
  have hr2 := execute_all hc env { s with opcode := fetchWord s } hdel hsnd
    (hc.opcode s _ hP) r hr
  split at h
  · simp only [Option.some.injEq] at h
    rw [← h]
    exact hr2.1
  · simp only [Option.some.injEq] at h
    rw [← h]
    exact htim _ hr2.1

theorem binaryDisplay_closed : Closed BinaryDisplay where
  v := fun _ _ h => h
  memory := fun _ _ h => h
  stack := fun _ _ h => h
  pc := fun _ _ h => h
  opcode := fun _ _ h => h
  sp := fun _ _ h => h
  I := fun _ _ h => h
  clear := by
    intro t i _ h j hj
    by_cases hji : j = i
    · left
      simp [store, hji]
    · simpa [store, hji] using h j hj
  flip := by
    intro t i hi h j hj
    by_cases hji : j = i
    · subst hji
      rcases h j hj with h0 | h1
      · right
        simp [store, h0]
      · left
        simp [store, h1]
    · simpa [store, hji] using h j hj

/-- C14: `c8_init` leaves every one of the 2048 display cells 0 or 1, and from a state
whose display cells are all 0 or 1 every cycle whose array accesses are all in bounds
(the embedded cycle returns a state) ends in a state whose display cells are all 0 or
1. -/
theorem display_binary (env : Env) (s s1 : State) :
    (∀ (now : Int) (s0 : State), BinaryDisplay (c8_init now s0)) ∧
    (BinaryDisplay s → c8_emulate_cycle env s = some s1 → BinaryDisplay s1) := by
  constructor
  · intro now s0 j hj
    left
    simp [c8_init, memset0, hj]
  · intro hbin h
    refine cycle_inv binaryDisplay_closed env s s1 (fun _ _ _ _ _ hu => hu)
      (fun _ _ _ _ _ hu => hu) ?_ hbin h
    intro u hu j hj
    rw [update_timers_display]
    exact hu j hj

/-- Witness of `display_binary`: the display after `c8_init` on a machine of sevens, and
the display after `D011` drawn over a set cell. -/
theorem display_binary_witness :
    BinaryDisplay (c8_init 0 sDirty) ∧
    ∃ s1, c8_emulate_cycle env0 sDrawHit = some s1 ∧ BinaryDisplay s1 := by
  have hb : ∀ j, spriteCells sDrawHit 0 1 1 j → j < 2048 := by
    rintro j ⟨r, hr, c, hc, -, rfl⟩
    interval_cases r
    interval_cases c <;> decide
  obtain ⟨s1, h1, -⟩ := draw_cycle env0 sDrawHit 0 1 1 (by decide) (by decide) (by decide)
    (by decide) (by decide) (by decide) hb
  have hbin : BinaryDisplay sDrawHit := by
    intro j _
    by_cases hj : j = 131
    · exact Or.inr (by simp [sDrawHit, hj])
    · exact Or.inl (by simp [sDrawHit, hj])
  exact ⟨(display_binary env0 sDrawHit s1).1 0 sDirty, s1, h1,
    (display_binary env0 sDrawHit s1).2 hbin h1⟩

/-! ## Timer update after the opcode switch -/

theorem cycle_decompose (env : Env) (s s1 : State) (h : c8_emulate_cycle env s = some s1) :
    ∃ t b, execute env { s with opcode := fetchWord s } = some (t, b) ∧
      s1 = if b = true then t else update_timers env t := by
  unfold c8_emulate_cycle c8_fetch at h
  simp only [Option.bind_eq_bind, Option.bind_eq_some, Option.some.injEq] at h
  obtain ⟨s0, ⟨a, -, b, -, rfl⟩, r, hr, h⟩ := h
  refine ⟨r.1, r.2, hr, ?_⟩
  split at h
  · rename_i hb
    simp only [Option.some.injEq] at h
    rw [if_pos hb]
    exact h.symm
  · rename_i hb
    simp only [Option.some.injEq] at h
    rw [if_neg hb]
    exact h.symm

theorem update_timers_delay_timer (env : Env) (t : State) :
    (update_timers env t).delay_timer =
      if 0 < t.delay_timer ∧
          elapsed env.clockDelayTest t.last_delay_update env.clocksPerSec = true
      then u8 ((t.delay_timer : Int) - 1) else t.delay_timer := by
  unfold update_timers
  dsimp only
  split_ifs <;> simp_all

theorem update_timers_sound_timer (env : Env) (t : State) :
    (update_timers env t).sound_timer =
      if 0 < t.sound_timer ∧
          elapsed env.clockSoundTest t.last_sound_update env.clocksPerSec = true
      then u8 ((t.sound_timer : Int) - 1) else t.sound_timer := by
  unfold update_timers
  dsimp only
  split_ifs <;> simp_all

/-- What the timer update does after every opcode other than `Fx15`, `Fx18` and `Fx0A`,
when the cycle's array accesses are in bounds: a nonzero timer whose elapsed-time test
holds is decremented by 1, and a timer that is 0 stays 0. -/
theorem timer_tick_actual (env : Env) (s s1 : State)
    (hop : fetchWord s &&& 0xF000 = 0xF000 →
      fetchWord s &&& 0x00FF ≠ 0x0015 ∧ fetchWord s &&& 0x00FF ≠ 0x0018 ∧
        fetchWord s &&& 0x00FF ≠ 0x000A)
    (hd : s.delay_timer < 256) (hs : s.sound_timer < 256)
    (h : c8_emulate_cycle env s = some s1) :
    (0 < s.delay_timer →
      elapsed env.clockDelayTest s.last_delay_update env.clocksPerSec = true →
      s1.delay_timer = s.delay_timer - 1) ∧
    (s.delay_timer = 0 → s1.delay_timer = 0) ∧
    (0 < s.sound_timer →
      elapsed env.clockSoundTest s.last_sound_update env.clocksPerSec = true →
      s1.sound_timer = s.sound_timer - 1) ∧
    (s.sound_timer = 0 → s1.sound_timer = 0) := by
  obtain ⟨t, b, ht, hs1⟩ := cycle_decompose env s s1 h
  have hc : Closed (fun u : State => u.delay_timer = s.delay_timer ∧
      u.last_delay_update = s.last_delay_update ∧ u.sound_timer = s.sound_timer ∧
      u.last_sound_update = s.last_sound_update) :=
    ⟨fun _ _ h => h, fun _ _ h => h, fun _ _ h => h, fun _ _ h => h, fun _ _ h => h,
     fun _ _ h => h, fun _ _ h => h, fun _ _ _ h => h, fun _ _ _ h => h⟩
  obtain ⟨⟨h1, h2, h3, h4⟩, hb⟩ := execute_all hc env { s with opcode := fetchWord s }
    (fun hF h15 => absurd h15 (hop hF).1) (fun hF h18 => absurd h18 (hop hF).2.1)
    ⟨rfl, rfl, rfl, rfl⟩ (t, b) ht
  have hbf : b = false := by
    cases b
    · rfl
    · exact absurd (hb rfl).2 (hop (hb rfl).1).2.2
  subst hbf
  simp only [Bool.false_eq_true, if_false] at hs1
  subst hs1
  dsimp only at h1 h2 h3 h4
  rw [update_timers_delay_timer, update_timers_sound_timer, h1, h2, h3, h4]
  refine ⟨?_, ?_, ?_, ?_⟩
  · intro hpos hel
    rw [if_pos ⟨hpos, hel⟩]
    unfold u8
    omega
  · intro hz
    rw [if_neg (by omega), hz]
  · intro hpos hel
    rw [if_pos ⟨hpos, hel⟩]
    unfold u8
    omega
  · intro hz
    rw [if_neg (by omega), hz]

/-! ## Timer tick for every opcode -/

end Chip8
